import Mathlib

/-!
Verification development for the expense-tracker analytics core
(`analytics.py`).  The Python source is shallowly embedded: currency
amounts become exact rationals (`ℚ`), `datetime.date` values become
`Date` triples ordered lexicographically (as in CPython), the calendar
arithmetic (`date.toordinal`, leap years, days-in-month) follows the
CPython `datetime` implementation, and the `round(x, 2)` builtin becomes
round-half-to-even at two decimal places over `ℚ`.
-/

namespace ExpenseTracker

/-! ### Rounding (Python `round(x, 2)` = banker's rounding, idealized over ℚ) -/

/-- Round a rational to the nearest integer, ties to even. -/
def rhe (x : ℚ) : ℤ :=
  if x - (⌊x⌋ : ℚ) < 1/2 then ⌊x⌋
  else if 1/2 < x - (⌊x⌋ : ℚ) then ⌊x⌋ + 1
  else if (⌊x⌋ : ℤ) % 2 = 0 then ⌊x⌋ else ⌊x⌋ + 1

/-- Python `round(x, 2)`: round to two decimal places, ties to even. -/
def round2 (x : ℚ) : ℚ := (rhe (x * 100) : ℚ) / 100

theorem rhe_intCast (n : ℤ) : rhe (n : ℚ) = n := by
  simp [rhe]

theorem rhe_floor_le (x : ℚ) : ⌊x⌋ ≤ rhe x := by
  unfold rhe
  split
  · omega
  · split
    · omega
    · split <;> omega

theorem rhe_le_floor_add_one (x : ℚ) : rhe x ≤ ⌊x⌋ + 1 := by
  unfold rhe
  split
  · omega
  · split
    · omega
    · split <;> omega

theorem rhe_mono {x y : ℚ} (h : x ≤ y) : rhe x ≤ rhe y := by
  have hf : (⌊x⌋ : ℤ) ≤ ⌊y⌋ := Int.floor_le_floor h
  rcases lt_or_eq_of_le hf with hlt | heq
  · have h1 := rhe_le_floor_add_one x
    have h2 := rhe_floor_le y
    omega
  · have heqQ : ((⌊x⌋ : ℤ) : ℚ) = ((⌊y⌋ : ℤ) : ℚ) := by exact_mod_cast heq
    by_cases hy1 : y - (⌊y⌋ : ℚ) < 1/2
    · have hx1 : x - (⌊x⌋ : ℚ) < 1/2 := by rw [heqQ]; linarith
      have e1 : rhe x = ⌊x⌋ := by unfold rhe; rw [if_pos hx1]
      have e2 : rhe y = ⌊y⌋ := by unfold rhe; rw [if_pos hy1]
      omega
    · by_cases hy2 : 1/2 < y - (⌊y⌋ : ℚ)
      · have h1 := rhe_le_floor_add_one x
        have e2 : rhe y = ⌊y⌋ + 1 := by unfold rhe; rw [if_neg hy1, if_pos hy2]
        omega
      · have hytie : y - (⌊y⌋ : ℚ) = 1/2 := le_antisymm (le_of_not_lt hy2) (le_of_not_lt hy1)
        by_cases hx1 : x - (⌊x⌋ : ℚ) < 1/2
        · have e1 : rhe x = ⌊x⌋ := by unfold rhe; rw [if_pos hx1]
          have h2 := rhe_floor_le y
          omega
        · have hxy : x = y := by
            have := le_of_not_lt hx1
            rw [heqQ] at this
            linarith
          rw [hxy]

theorem abs_rhe_sub_le (x : ℚ) : |(rhe x : ℚ) - x| ≤ 1/2 := by
  have h0 : (⌊x⌋ : ℚ) ≤ x := Int.floor_le x
  have h1 : x < (⌊x⌋ : ℚ) + 1 := Int.lt_floor_add_one x
  unfold rhe
  split
  · rw [abs_sub_comm, abs_of_nonneg (by linarith)]; linarith
  · rename_i h2
    push_neg at h2
    split
    · push_cast
      rw [abs_of_nonneg (by linarith)]; linarith
    · rename_i h3
      push_neg at h3
      split
      · rw [abs_sub_comm, abs_of_nonneg (by linarith)]; linarith
      · push_cast
        rw [abs_of_nonneg (by linarith)]; linarith

theorem round2_mono {x y : ℚ} (h : x ≤ y) : round2 x ≤ round2 y := by
  unfold round2
  have := rhe_mono (mul_le_mul_of_nonneg_right h (by norm_num : (0:ℚ) ≤ 100))
  have h2 : ((rhe (x*100) : ℤ) : ℚ) ≤ ((rhe (y*100) : ℤ) : ℚ) := by exact_mod_cast this
  linarith

/-- A rational that is a whole number of hundredths. -/
def Centi (x : ℚ) : Prop := ∃ n : ℤ, x = (n : ℚ) / 100

theorem round2_centi {x : ℚ} (h : Centi x) : round2 x = x := by
  obtain ⟨n, rfl⟩ := h
  unfold round2
  rw [div_mul_cancel₀ _ (by norm_num : (100:ℚ) ≠ 0), rhe_intCast]

theorem Centi.add {x y : ℚ} (hx : Centi x) (hy : Centi y) : Centi (x + y) := by
  obtain ⟨n, rfl⟩ := hx; obtain ⟨m, rfl⟩ := hy
  exact ⟨n + m, by push_cast; ring⟩

theorem Centi.zero : Centi 0 := ⟨0, by norm_num⟩

theorem abs_round2_sub_le (x : ℚ) : |round2 x - x| ≤ 1/200 := by
  unfold round2
  have h := abs_rhe_sub_le (x * 100)
  have h2 : |(rhe (x*100) : ℚ) / 100 - x| = |(rhe (x*100) : ℚ) - x*100| / 100 := by
    rw [← abs_of_pos (show (0:ℚ) < 100 by norm_num), ← abs_div]
    congr 1
    field_simp
    ring
  rw [h2]
  linarith

/-! ### Calendar arithmetic (CPython `datetime` module) -/

/-- Gregorian leap year, as in CPython `datetime._is_leap`. -/
def is_leap (y : Nat) : Bool := y % 4 == 0 && (y % 100 != 0 || y % 400 == 0)

theorem is_leap_iff {y : Nat} :
    is_leap y = true ↔ (y % 4 = 0 ∧ (y % 100 ≠ 0 ∨ y % 400 = 0)) := by
  simp [is_leap]

/-- Number of days in month `m` of year `y` (CPython `_days_in_month`). -/
def days_in_month (y m : Nat) : Nat :=
  if m = 2 then (if is_leap y then 29 else 28)
  else if m = 4 ∨ m = 6 ∨ m = 9 ∨ m = 11 then 30
  else 31

/-- Days in year `y` strictly before month `m` (CPython `_days_before_month`). -/
def days_before_month (y m : Nat) : Nat :=
  (if m = 1 then 0 else if m = 2 then 31 else if m = 3 then 59
   else if m = 4 then 90 else if m = 5 then 120 else if m = 6 then 151
   else if m = 7 then 181 else if m = 8 then 212 else if m = 9 then 243
   else if m = 10 then 273 else if m = 11 then 304 else if m = 12 then 334
   else 0)
  + (if 2 < m ∧ is_leap y then 1 else 0)

/-- Days before January 1 of year `y` (CPython `_days_before_year`). -/
def days_before_year (y : Nat) : Nat :=
  (y-1)*365 + (y-1)/4 - (y-1)/100 + (y-1)/400

/-- Proleptic-Gregorian ordinal of a date (CPython `_ymd2ord`);
`ymd2ord 1 1 1 = 1`. -/
def ymd2ord (y m d : Nat) : Nat := days_before_year y + days_before_month y m + d

theorem days_before_month_succ {y m : Nat} (h1 : 1 ≤ m) (h2 : m ≤ 11) :
    days_before_month y (m+1) = days_before_month y m + days_in_month y m := by
  rcases hl : is_leap y <;>
    (interval_cases m <;> simp [days_before_month, days_in_month, hl])

theorem is_leap_iff_dvd {y : Nat} :
    is_leap y = true ↔ (4 ∣ y ∧ (¬ (100 ∣ y) ∨ 400 ∣ y)) := by
  rw [is_leap_iff]
  constructor <;> intro h <;> omega

theorem dbm_one (y : Nat) : days_before_month y 1 = 0 := by
  simp [days_before_month]

theorem dbm_twelve (y : Nat) :
    days_before_month y 12 = 334 + (if is_leap y then 1 else 0) := by
  simp [days_before_month]

theorem dby_succ {y : Nat} (hy : 1 ≤ y) :
    days_before_year (y+1) = days_before_year y + 365 + (if is_leap y then 1 else 0) := by
  obtain ⟨x, rfl⟩ : ∃ x, y = x + 1 := ⟨y - 1, by omega⟩
  unfold days_before_year
  simp only [Nat.add_sub_cancel, Nat.succ_div,
    show ((is_leap (x+1) = true)) = (4 ∣ (x+1) ∧ (¬ (100 ∣ (x+1)) ∨ 400 ∣ (x+1))) from
      propext is_leap_iff_dvd]
  have d1 : x/100 ≤ x/4 := by
    apply Nat.div_le_div_left <;> norm_num
  have d2 : x/400 ≤ x/100 := by
    apply Nat.div_le_div_left <;> norm_num
  have d3 : x/100 ≤ x := Nat.div_le_self _ _
  generalize x / 4 = a at *
  generalize x / 100 = b at *
  generalize x / 400 = c at *
  by_cases h4 : 4 ∣ (x+1) <;> by_cases h100 : 100 ∣ (x+1) <;> by_cases h400 : 400 ∣ (x+1) <;>
    simp [h4, h100, h400] <;> omega

theorem ymd2ord_dec_boundary {y : Nat} (hy : 1 ≤ y) :
    ymd2ord (y+1) 1 1 = ymd2ord y 12 1 + 31 := by
  unfold ymd2ord
  rw [dbm_one, dbm_twelve, dby_succ hy]
  generalize days_before_year y = D
  rcases is_leap y <;> simp <;> omega

/-- The span `end - start` in days over a whole month equals `days_in_month`,
for every valid month of every year. -/
theorem month_span (y m : Nat) (hy : 1 ≤ y) (h1 : 1 ≤ m) (h2 : m ≤ 12) :
    (if m = 12 then ymd2ord (y+1) 1 1 else ymd2ord y (m+1) 1)
      = ymd2ord y m 1 + days_in_month y m := by
  by_cases h12 : m = 12
  · subst h12
    rw [if_pos rfl, ymd2ord_dec_boundary hy]
    simp [days_in_month]
  · rw [if_neg h12]
    unfold ymd2ord
    rw [days_before_month_succ h1 (by omega)]
    omega

/-! ### Dates (`datetime.date`, ordered lexicographically) -/

/-- A calendar date `(year, month, day)`. -/
structure Date where
  y : Nat
  m : Nat
  d : Nat
deriving DecidableEq, Repr

/-- Python date `<` (lexicographic on year, month, day). -/
def dateLt (a b : Date) : Bool :=
  if a.y = b.y then
    (if a.m = b.m then decide (a.d < b.d) else decide (a.m < b.m))
  else decide (a.y < b.y)

/-- Python date `<=`. -/
def dateLe (a b : Date) : Bool := dateLt a b || decide (a = b)

/-- Python `min` of two dates (returns the first argument on ties). -/
def dateMin (a b : Date) : Date := if dateLt b a then b else a

/-- Python `max` of two dates (returns the first argument on ties). -/
def dateMax (a b : Date) : Date := if dateLt a b then b else a

/-- A `Date` that `datetime.date` would accept (ignoring the year-9999 cap). -/
def validDate (a : Date) : Prop :=
  1 ≤ a.y ∧ 1 ≤ a.m ∧ a.m ≤ 12 ∧ 1 ≤ a.d ∧ a.d ≤ days_in_month a.y a.m

instance (a : Date) : Decidable (validDate a) := by unfold validDate; infer_instance

theorem dateLt_iff {a b : Date} :
    dateLt a b = true ↔
      (a.y < b.y ∨ (a.y = b.y ∧ (a.m < b.m ∨ (a.m = b.m ∧ a.d < b.d)))) := by
  unfold dateLt
  split <;> rename_i h1
  · split <;> rename_i h2 <;> simp [h1, h2] <;> omega
  · simp [h1]
    try omega

theorem dateLe_iff {a b : Date} :
    dateLe a b = true ↔ (dateLt a b = true ∨ a = b) := by
  simp [dateLe]

theorem not_dateLt_iff {a b : Date} :
    dateLt a b = false ↔ ¬ (a.y < b.y ∨ (a.y = b.y ∧ (a.m < b.m ∨ (a.m = b.m ∧ a.d < b.d)))) := by
  rw [← dateLt_iff]
  cases dateLt a b <;> simp

/-! ### Decimal strings: Python `str(n)`, `f"{m:02d}"`, `int(s)`, `str.strip` -/

/-- The decimal digit character for `d < 10`. -/
def digitChar (d : Nat) : Char :=
  if d = 0 then '0' else if d = 1 then '1' else if d = 2 then '2'
  else if d = 3 then '3' else if d = 4 then '4' else if d = 5 then '5'
  else if d = 6 then '6' else if d = 7 then '7' else if d = 8 then '8' else '9'

def isDig (c : Char) : Bool := decide (48 ≤ c.toNat) && decide (c.toNat ≤ 57)

/-- Digit-accumulating loop of `str(n)`; `fuel` bounds the recursion depth
(it is always called with `fuel = n ≥` number of digits, so it never runs
out). Structural recursion on `fuel` keeps the definition kernel-reducible. -/
def natDigitsAux (fuel : Nat) (n : Nat) (acc : List Char) : List Char :=
  match fuel with
  | 0 => acc
  | fuel + 1 =>
    if n = 0 then acc else natDigitsAux fuel (n / 10) (digitChar (n % 10) :: acc)

/-- Python `str(n)` for a natural number, as a character list. -/
def natDecimal (n : Nat) : List Char := if n = 0 then ['0'] else natDigitsAux n n []

/-- Value of a list of decimal digit characters (most significant first). -/
def digitsVal (cs : List Char) : Nat := cs.foldl (fun a c => a * 10 + (c.toNat - 48)) 0

theorem digitChar_toNat {d : Nat} (h : d < 10) : (digitChar d).toNat = 48 + d := by
  interval_cases d <;> decide

theorem digitChar_isDig (d : Nat) : isDig (digitChar d) = true := by
  unfold digitChar
  split
  · decide
  · split
    · decide
    · split
      · decide
      · split
        · decide
        · split
          · decide
          · split
            · decide
            · split
              · decide
              · split
                · decide
                · split <;> decide

theorem natDigitsAux_zero_n (f : Nat) (acc : List Char) : natDigitsAux f 0 acc = acc := by
  cases f <;> simp [natDigitsAux]

theorem natDigitsAux_acc (f : Nat) :
    ∀ n acc, natDigitsAux f n acc = natDigitsAux f n [] ++ acc := by
  induction f with
  | zero => intro n acc; rfl
  | succ f ih =>
    intro n acc
    by_cases h : n = 0
    · subst h; simp [natDigitsAux]
    · simp only [natDigitsAux, h, if_false]
      rw [ih (n/10) (digitChar (n % 10) :: acc), ih (n/10) [digitChar (n % 10)]]
      simp

theorem natDigitsAux_unfold {f n : Nat} (h : n ≠ 0) :
    natDigitsAux (f+1) n [] = natDigitsAux f (n/10) [] ++ [digitChar (n % 10)] := by
  simp only [natDigitsAux, h, if_false]
  rw [natDigitsAux_acc]

theorem natDigitsAux_all_dig (f : Nat) :
    ∀ n, ∀ c ∈ natDigitsAux f n [], isDig c = true := by
  induction f with
  | zero => intro n c hc; simp [natDigitsAux] at hc
  | succ f ih =>
    intro n c hc
    by_cases h : n = 0
    · subst h; simp [natDigitsAux] at hc
    · rw [natDigitsAux_unfold h] at hc
      rcases List.mem_append.mp hc with h1 | h1
      · exact ih _ c h1
      · simp at h1
        rw [h1]
        exact digitChar_isDig _

theorem foldl_natDigitsAux :
    ∀ f n, 0 < n → n ≤ f →
    ∀ a, List.foldl (fun a c => a * 10 + (c.toNat - 48)) a (natDigitsAux f n [])
      = a * 10 ^ (natDigitsAux f n []).length + n := by
  intro f
  induction f with
  | zero => intro n h1 h2; omega
  | succ f ih =>
    intro n h1 h2 a
    have h : n ≠ 0 := by omega
    rw [natDigitsAux_unfold h]
    have hd : n % 10 < 10 := Nat.mod_lt _ (by norm_num)
    have hlt : n / 10 < n := Nat.div_lt_self h1 (by norm_num)
    by_cases h10 : n / 10 = 0
    · rw [h10, natDigitsAux_zero_n]
      simp only [List.nil_append, List.foldl_cons, List.foldl_nil, List.length_cons,
        List.length_nil, Nat.zero_add]
      rw [digitChar_toNat hd]
      have hm : n % 10 = n := by omega
      rw [hm]
      have hp : (10:Nat) ^ 1 = 10 := by norm_num
      rw [hp]
      omega
    · have hpos : 0 < n / 10 := Nat.pos_of_ne_zero h10
      have hle : n / 10 ≤ f := by omega
      rw [List.foldl_append, List.length_append, ih _ hpos hle a]
      simp only [List.foldl_cons, List.foldl_nil, List.length_cons, List.length_nil,
        Nat.zero_add]
      rw [digitChar_toNat hd, pow_succ]
      have h48 : 48 + n % 10 - 48 = n % 10 := by omega
      rw [h48]
      have hdm : 10 * (n / 10) + n % 10 = n := Nat.div_add_mod n 10
      have key : (a * 10 ^ (natDigitsAux f (n/10) []).length + n / 10) * 10 + n % 10
          = a * (10 ^ (natDigitsAux f (n/10) []).length * 10) + (10 * (n / 10) + n % 10) := by
        ring
      rw [key, hdm]

theorem digitsVal_natDecimal (n : Nat) : digitsVal (natDecimal n) = n := by
  by_cases h : n = 0
  · rw [h]; decide
  · unfold natDecimal digitsVal
    simp only [h, if_false]
    rw [foldl_natDigitsAux n n (Nat.pos_of_ne_zero h) (le_refl n) 0]
    simp

theorem natDecimal_all_dig (n : Nat) : ∀ c ∈ natDecimal n, isDig c = true := by
  unfold natDecimal
  split
  · intro c hc; simp at hc; rw [hc]; decide
  · exact natDigitsAux_all_dig n n

theorem natDecimal_ne_nil (n : Nat) : natDecimal n ≠ [] := by
  unfold natDecimal
  split
  · simp
  · rename_i h
    obtain ⟨k, rfl⟩ : ∃ k, n = k + 1 := ⟨n - 1, by omega⟩
    rw [natDigitsAux_unfold h]
    simp

theorem isDig_ne_dash {c : Char} (h : isDig c = true) : c ≠ '-' := by
  intro hc
  rw [hc] at h
  exact absurd h (by decide)

/-- Python whitespace characters recognized by `str.strip()`. -/
def isSpaceChar (c : Char) : Bool :=
  c == ' ' || c == '\t' || c == '\n' || c == '\x0b' || c == '\x0c' || c == '\r'

/-- Python `str.strip()` on a character list. -/
def pyStrip (cs : List Char) : List Char :=
  ((cs.dropWhile isSpaceChar).reverse.dropWhile isSpaceChar).reverse

theorem dropWhile_of_forall_not {p : Char → Bool} :
    ∀ {cs : List Char}, (∀ c ∈ cs, p c = false) → cs.dropWhile p = cs := by
  intro cs h
  cases cs with
  | nil => rfl
  | cons c cs =>
    rw [List.dropWhile_cons]
    simp [h c (by simp)]

theorem pyStrip_eq_self {cs : List Char} (h : ∀ c ∈ cs, isSpaceChar c = false) :
    pyStrip cs = cs := by
  unfold pyStrip
  rw [dropWhile_of_forall_not h]
  rw [dropWhile_of_forall_not (by intro c hc; exact h c (List.mem_reverse.mp hc))]
  simp

theorem isDig_not_space {c : Char} (h : isDig c = true) : isSpaceChar c = false := by
  cases hs : isSpaceChar c with
  | false => rfl
  | true =>
    exfalso
    simp only [isSpaceChar, Bool.or_eq_true, beq_iff_eq] at hs
    rcases hs with ((((hc | hc) | hc) | hc) | hc) | hc <;>
      (subst hc; exact absurd h (by decide))

/-- Python `s.split(sep)` for a single separator character. -/
def splitOnC (sep : Char) : List Char → List (List Char)
  | [] => [[]]
  | c :: cs =>
    match splitOnC sep cs with
    | [] => [[]]
    | h :: t => if c = sep then [] :: h :: t else (c :: h) :: t

theorem splitOnC_ne_nil (sep : Char) (cs : List Char) : splitOnC sep cs ≠ [] := by
  cases cs with
  | nil => simp [splitOnC]
  | cons c cs =>
    simp only [splitOnC]
    cases hs : splitOnC sep cs with
    | nil => simp
    | cons h t =>
      split
      · simp
      · split <;> simp

theorem splitOnC_no_sep {sep : Char} {cs : List Char} (h : ∀ c ∈ cs, c ≠ sep) :
    splitOnC sep cs = [cs] := by
  induction cs with
  | nil => rfl
  | cons c cs ih =>
    have hc : c ≠ sep := h c (by simp)
    have ih' := ih (fun x hx => h x (by simp [hx]))
    simp only [splitOnC]
    rw [ih']
    simp [hc]

theorem splitOnC_append {sep : Char} {l1 l2 : List Char} (h : ∀ c ∈ l1, c ≠ sep) :
    splitOnC sep (l1 ++ sep :: l2) = l1 :: splitOnC sep l2 := by
  induction l1 with
  | nil =>
    simp only [List.nil_append, splitOnC]
    cases hs : splitOnC sep l2 with
    | nil => exact absurd hs (splitOnC_ne_nil sep l2)
    | cons a t => simp
  | cons c l1 ih =>
    have hc : c ≠ sep := h c (by simp)
    have ih' := ih (fun x hx => h x (by simp [hx]))
    simp only [List.cons_append, splitOnC, List.append_eq]
    rw [ih']
    simp [hc]

/-- Python `int(s)` restricted to unsigned decimal numerals (surrounding
whitespace allowed); `none` models the `ValueError` that `int` raises. -/
def toNatPy (cs : List Char) : Option Nat :=
  let t := pyStrip cs
  if t ≠ [] ∧ t.all isDig then some (digitsVal t) else none

theorem toNatPy_natDecimal (n : Nat) : toNatPy (natDecimal n) = some n := by
  unfold toNatPy
  have hd := natDecimal_all_dig n
  have hs : pyStrip (natDecimal n) = natDecimal n :=
    pyStrip_eq_self (fun c hc => isDig_not_space (hd c hc))
  simp only [hs]
  rw [if_pos ⟨natDecimal_ne_nil n, List.all_eq_true.mpr (fun c hc => hd c hc)⟩]
  rw [digitsVal_natDecimal]

/-- Python `f"{m:02d}"` (for nonnegative `m`). -/
def pad2 (m : Nat) : List Char := if m < 10 then '0' :: natDecimal m else natDecimal m

theorem pad2_all_dig (m : Nat) : ∀ c ∈ pad2 m, isDig c = true := by
  unfold pad2
  split
  · intro c hc
    rcases List.mem_cons.mp hc with h | h
    · rw [h]; decide
    · exact natDecimal_all_dig m c h
  · exact natDecimal_all_dig m

theorem pad2_ne_nil (m : Nat) : pad2 m ≠ [] := by
  unfold pad2
  split
  · simp
  · exact natDecimal_ne_nil m

theorem digitsVal_cons_zero (cs : List Char) : digitsVal ('0' :: cs) = digitsVal cs := by
  unfold digitsVal
  simp only [List.foldl_cons]
  have h : 0 * 10 + ('0'.toNat - 48) = 0 := by decide
  rw [h]

theorem digitsVal_pad2 (m : Nat) : digitsVal (pad2 m) = m := by
  unfold pad2
  split
  · rw [digitsVal_cons_zero, digitsVal_natDecimal]
  · rw [digitsVal_natDecimal]

theorem toNatPy_pad2 (m : Nat) : toNatPy (pad2 m) = some m := by
  unfold toNatPy
  have hd := pad2_all_dig m
  have hs : pyStrip (pad2 m) = pad2 m :=
    pyStrip_eq_self (fun c hc => isDig_not_space (hd c hc))
  simp only [hs]
  rw [if_pos ⟨pad2_ne_nil m, List.all_eq_true.mpr (fun c hc => hd c hc)⟩]
  rw [digitsVal_pad2]

/-- Characters of `f"{y}-{m:02d}"`, the `_month_str` format. -/
def monthChars (y m : Nat) : List Char := natDecimal y ++ '-' :: pad2 m

/-- Embeds `_month_str(d)`, i.e. `f"{d.year}-{d.month:02d}"`. -/
def month_str (y m : Nat) : String := ⟨monthChars y m⟩

/-- Embeds `parse_yyyy_mm(s)`: strip, split on `"-"`, parse two integers, check the
month range; `none` models the `ValueError` the Python code raises. -/
def parse_yyyy_mm (s : String) : Option (Nat × Nat) :=
  match splitOnC '-' (pyStrip s.data) with
  | [a, b] =>
    match toNatPy a, toNatPy b with
    | some year, some mon => if mon < 1 ∨ 12 < mon then none else some (year, mon)
    | some _, none => none
    | none, _ => none
  | _ => none

theorem monthChars_no_space : ∀ {y m : Nat}, ∀ c ∈ monthChars y m, isSpaceChar c = false := by
  intro y m c hc
  unfold monthChars at hc
  rcases List.mem_append.mp hc with h | h
  · exact isDig_not_space (natDecimal_all_dig y c h)
  · rcases List.mem_cons.mp h with h1 | h1
    · rw [h1]; decide
    · exact isDig_not_space (pad2_all_dig m c h1)

theorem parse_month_str {y m : Nat} (h1 : 1 ≤ m) (h2 : m ≤ 12) :
    parse_yyyy_mm (month_str y m) = some (y, m) := by
  unfold parse_yyyy_mm month_str
  have hdata : (String.mk (monthChars y m)).data = monthChars y m := rfl
  rw [hdata]
  rw [pyStrip_eq_self monthChars_no_space]
  unfold monthChars
  rw [splitOnC_append (fun c hc => isDig_ne_dash (natDecimal_all_dig y c hc))]
  rw [splitOnC_no_sep (fun c hc => isDig_ne_dash (pad2_all_dig m c hc))]
  simp only [toNatPy_natDecimal, toNatPy_pad2]
  rw [if_neg (by omega)]

/-! ### Date helpers of analytics.py -/

/-- First day of the month after `(y, m)` (the `if m == 12` rollover pattern
used throughout analytics.py). -/
def monthSucc (y m : Nat) : Date := if m = 12 then ⟨y+1, 1, 1⟩ else ⟨y, m+1, 1⟩

/-- Embeds `month_bounds_utc(month)`: `[start, end)`.  All datetimes the Python code
builds here are UTC midnights, so each is represented by its date.  `none`
models the `ValueError` raised on an unparseable month string. -/
def month_bounds_utc (month : String) : Option (Date × Date) :=
  match parse_yyyy_mm month with
  | none => none
  | some (y, m) => some (⟨y, m, 1⟩, monthSucc y m)

/-- Python `str(i)` for an integer. -/
def intDecimal (i : Int) : List Char :=
  if i < 0 then '-' :: natDecimal i.natAbs else natDecimal i.natAbs

/-- Embeds `prev_month_str(month)`: `f"{y-1}-12"` for January, else `f"{y}-{m-1:02d}"`.
`none` models the `ValueError` raised on an unparseable month string. -/
def prev_month_str (month : String) : Option String :=
  match parse_yyyy_mm month with
  | none => none
  | some (y, m) =>
    if m = 1 then some ⟨intDecimal ((y : Int) - 1) ++ '-' :: pad2 12⟩
    else some ⟨natDecimal y ++ '-' :: pad2 (m-1)⟩

/-- The `while cur < end` loop of `split_range_by_month`: starting from the
month first-day `(y, m, 1)`, append `_month_str(cur)` and step to the next
month while `cur < end`.  The bound `1 ≤ m ≤ 12` (automatic for months coming
from a real `datetime.date`) is carried for termination. -/
def splitLoop (y m : Nat) (e : Date) (hm : 1 ≤ m ∧ m ≤ 12) : List String :=
  if hg : dateLt ⟨y, m, 1⟩ e then
    month_str y m ::
      (if h12 : m = 12 then splitLoop (y+1) 1 e ⟨by omega, by omega⟩
       else splitLoop y (m+1) e ⟨by omega, by omega⟩)
  else []
termination_by 12 * e.y + e.m + 12 - (12 * y + m)
decreasing_by
  all_goals
    (have h := dateLt_iff.mp hg
     simp only at h
     omega)

/-- The order-preserving de-duplication at the end of `split_range_by_month`
(`seen`-set plus output list). -/
def dedupeSeen (seen : List String) : List String → List String
  | [] => []
  | x :: xs => if x ∈ seen then dedupeSeen seen xs else x :: dedupeSeen (x :: seen) xs

/-- Embeds `split_range_by_month(start, end)`: the months `"YYYY-MM"` overlapping
`[start, end)`.  The hypothesis records that `start` comes from a real
`datetime.date` (month in 1..12). -/
def split_range_by_month (start e : Date) (hs : 1 ≤ start.m ∧ start.m ≤ 12) :
    List String :=
  if dateLe e start then []
  else
    let out := splitLoop start.y start.m e hs
    let out2 := if month_str start.y start.m ∈ out then out
                else month_str start.y start.m :: out
    dedupeSeen [] out2

/-- Month index of a parsed `"YYYY-MM"` string (a specification helper used
to state ordering of the results). -/
def strIdx (s : String) : Nat :=
  match parse_yyyy_mm s with
  | some (y, m) => 12 * y + m
  | none => 0

/-- The calendar month `(y, m)` — the day interval
`[⟨y,m,1⟩, monthSucc y m)` — intersects the day interval `[s, e)`. -/
def monthIntersects (y m : Nat) (s e : Date) : Bool :=
  dateLt ⟨y, m, 1⟩ e && dateLt s (monthSucc y m)

theorem strIdx_month_str {y m : Nat} (h1 : 1 ≤ m) (h2 : m ≤ 12) :
    strIdx (month_str y m) = 12 * y + m := by
  unfold strIdx
  rw [parse_month_str h1 h2]

theorem month_str_inj {y m y' m' : Nat} (h1 : 1 ≤ m) (h2 : m ≤ 12)
    (h1' : 1 ≤ m') (h2' : m' ≤ 12) (h : month_str y m = month_str y' m') :
    y = y' ∧ m = m' := by
  have := parse_month_str (y := y) h1 h2
  rw [h, parse_month_str h1' h2'] at this
  simp at this
  exact ⟨this.1.symm, this.2.symm⟩

theorem splitLoop_elems {e : Date} {y m : Nat} {hm : 1 ≤ m ∧ m ≤ 12} :
    ∀ s ∈ splitLoop y m e hm, ∃ y' m', 1 ≤ m' ∧ m' ≤ 12 ∧ s = month_str y' m' ∧
      12*y+m ≤ 12*y'+m' ∧ dateLt ⟨y', m', 1⟩ e = true := by
  induction y, m, e, hm using splitLoop.induct with
  | case1 y m e hm hg ih12 ihn =>
    intro s hs
    rw [splitLoop, dif_pos hg] at hs
    rcases List.mem_cons.mp hs with h | h
    · exact ⟨y, m, hm.1, hm.2, h, by omega, hg⟩
    · by_cases h12 : m = 12
      · rw [dif_pos h12] at h
        obtain ⟨y', m', a1, a2, a3, a4, a5⟩ := ih12 h12 s h
        exact ⟨y', m', a1, a2, a3, by omega, a5⟩
      · rw [dif_neg h12] at h
        obtain ⟨y', m', a1, a2, a3, a4, a5⟩ := ihn h12 s h
        exact ⟨y', m', a1, a2, a3, by omega, a5⟩
  | case2 y m e hm hg =>
    intro s hs
    rw [splitLoop, dif_neg hg] at hs
    simp at hs

theorem splitLoop_mem {e : Date} {y m : Nat} {hm : 1 ≤ m ∧ m ≤ 12} {y' m' : Nat}
    (h1 : 1 ≤ m') (h2 : m' ≤ 12) :
    month_str y' m' ∈ splitLoop y m e hm ↔
      (12 * y + m ≤ 12 * y' + m' ∧ dateLt ⟨y', m', 1⟩ e = true) := by
  induction y, m, e, hm using splitLoop.induct with
  | case1 y m e hm hg ih12 ihn =>
    rw [splitLoop, dif_pos hg, List.mem_cons]
    constructor
    · rintro (h | h)
      · obtain ⟨hy, hmm⟩ := month_str_inj h1 h2 hm.1 hm.2 h
        subst hy; subst hmm
        exact ⟨le_refl _, hg⟩
      · by_cases h12 : m = 12
        · rw [dif_pos h12] at h
          have := (ih12 h12).mp h
          exact ⟨by omega, this.2⟩
        · rw [dif_neg h12] at h
          have := (ihn h12).mp h
          exact ⟨by omega, this.2⟩
    · rintro ⟨hidx, hlt⟩
      by_cases heq : 12 * y + m = 12 * y' + m'
      · left
        have hy : y = y' ∧ m = m' := by
          have := hm.1; have := hm.2; omega
        rw [hy.1, hy.2]
      · right
        by_cases h12 : m = 12
        · rw [dif_pos h12]
          exact (ih12 h12).mpr ⟨by omega, hlt⟩
        · rw [dif_neg h12]
          exact (ihn h12).mpr ⟨by omega, hlt⟩
  | case2 y m e hm hg =>
    rw [splitLoop, dif_neg hg]
    simp only [List.not_mem_nil, false_iff, not_and]
    intro hidx hlt
    apply hg
    have hc := dateLt_iff.mp hlt
    simp only at hc
    apply dateLt_iff.mpr
    simp only
    have := hm.1; have := hm.2
    omega

theorem splitLoop_pairwise {e : Date} {y m : Nat} {hm : 1 ≤ m ∧ m ≤ 12} :
    List.Pairwise (fun a b => strIdx a < strIdx b) (splitLoop y m e hm) := by
  induction y, m, e, hm using splitLoop.induct with
  | case1 y m e hm hg ih12 ihn =>
    rw [splitLoop, dif_pos hg]
    apply List.Pairwise.cons
    · intro b hb
      rw [strIdx_month_str hm.1 hm.2]
      by_cases h12 : m = 12
      · rw [dif_pos h12] at hb
        obtain ⟨y', m', a1, a2, a3, a4, a5⟩ := splitLoop_elems b hb
        rw [a3, strIdx_month_str a1 a2]
        omega
      · rw [dif_neg h12] at hb
        obtain ⟨y', m', a1, a2, a3, a4, a5⟩ := splitLoop_elems b hb
        rw [a3, strIdx_month_str a1 a2]
        omega
    · by_cases h12 : m = 12
      · rw [dif_pos h12]; exact ih12 h12
      · rw [dif_neg h12]; exact ihn h12
  | case2 y m e hm hg =>
    rw [splitLoop, dif_neg hg]
    exact List.Pairwise.nil

theorem splitLoop_nodup {e : Date} {y m : Nat} {hm : 1 ≤ m ∧ m ≤ 12} :
    (splitLoop y m e hm).Nodup :=
  splitLoop_pairwise.imp (fun h heq => by rw [heq] at h; omega)

theorem dedupeSeen_eq_self :
    ∀ {l seen : List String}, l.Nodup → (∀ x ∈ l, x ∉ seen) → dedupeSeen seen l = l := by
  intro l
  induction l with
  | nil => intro seen _ _; rfl
  | cons x xs ih =>
    intro seen hnd hs
    rw [dedupeSeen, if_neg (hs x (by simp))]
    congr 1
    apply ih (List.Nodup.of_cons hnd)
    intro z hz
    simp only [List.mem_cons, not_or]
    exact ⟨fun heq => (List.nodup_cons.mp hnd).1 (heq ▸ hz), hs z (by simp [hz])⟩

theorem dateLt_of_not_le {s e : Date} (h : ¬ (dateLe e s = true)) : dateLt s e = true := by
  rw [dateLe] at h
  simp only [Bool.or_eq_true, decide_eq_true_eq, not_or] at h
  obtain ⟨h1, h2⟩ := h
  have h1' : ¬ (e.y < s.y ∨ (e.y = s.y ∧ (e.m < s.m ∨ (e.m = s.m ∧ e.d < s.d)))) := by
    intro hc
    exact h1 (dateLt_iff.mpr hc)
  apply dateLt_iff.mpr
  have hne : s.y ≠ e.y ∨ s.m ≠ e.m ∨ s.d ≠ e.d := by
    by_contra hc
    push_neg at hc
    apply h2
    cases s; cases e; simp_all
  omega

theorem dateLe_false_of_lt {s e : Date} (h : dateLt s e = true) : dateLe e s = false := by
  have hc := dateLt_iff.mp h
  cases hb : dateLe e s with
  | false => rfl
  | true =>
    exfalso
    rcases dateLe_iff.mp hb with hb' | hb'
    · have := dateLt_iff.mp hb'
      omega
    · subst hb'
      omega

theorem dateLt_first_of_lt {s e : Date} (hd : 1 ≤ s.d) (h : dateLt s e = true) :
    dateLt ⟨s.y, s.m, 1⟩ e = true := by
  apply dateLt_iff.mpr
  simp only
  have hc := dateLt_iff.mp h
  omega

theorem start_idx_le_iff {s : Date} {y' m' : Nat} (hm1 : 1 ≤ s.m) (hm2 : s.m ≤ 12)
    (hd : 1 ≤ s.d) (h1 : 1 ≤ m') (h2 : m' ≤ 12) :
    (12 * s.y + s.m ≤ 12 * y' + m') ↔ dateLt s (monthSucc y' m') = true := by
  by_cases h12 : m' = 12
  · subst h12
    have hms : monthSucc y' 12 = ⟨y'+1, 1, 1⟩ := by simp [monthSucc]
    rw [hms]
    constructor
    · intro h
      apply dateLt_iff.mpr
      simp only
      omega
    · intro h
      have hc := dateLt_iff.mp h
      simp only at hc
      omega
  · have hms : monthSucc y' m' = ⟨y', m'+1, 1⟩ := by simp [monthSucc, h12]
    rw [hms]
    constructor
    · intro h
      apply dateLt_iff.mpr
      simp only
      omega
    · intro h
      have hc := dateLt_iff.mp h
      simp only at hc
      omega

theorem splitLoop_head {e : Date} {y m : Nat} {hm : 1 ≤ m ∧ m ≤ 12}
    (hg : dateLt ⟨y, m, 1⟩ e = true) :
    ∃ t, splitLoop y m e hm = month_str y m :: t := by
  rw [splitLoop, dif_pos hg]
  exact ⟨_, rfl⟩

theorem split_range_eq_loop {s e : Date} (hs : 1 ≤ s.m ∧ s.m ≤ 12) (hd : 1 ≤ s.d)
    (h : ¬ (dateLe e s = true)) :
    split_range_by_month s e hs = splitLoop s.y s.m e hs := by
  unfold split_range_by_month
  rw [if_neg h]
  have hlt := dateLt_of_not_le h
  have hfirst := dateLt_first_of_lt hd hlt
  obtain ⟨t, ht⟩ := @splitLoop_head _ _ _ hs hfirst
  have hmem : month_str s.y s.m ∈ splitLoop s.y s.m e hs := by rw [ht]; simp
  simp only [hmem, if_true]
  exact dedupeSeen_eq_self splitLoop_nodup (by simp)

/-- C5: `monthsOverlappingRange(start, end)` returns the empty sequence when
`end ≤ start`; when `start < end` the result starts with (hence includes) the
`"YYYY-MM"` of the month containing `start`; it never contains duplicates;
every element is a well-formed `"YYYY-MM"` month string; membership is exactly
intersection of the calendar month with `[start, end)`; and the sequence is
ordered (strictly increasing months). -/
theorem C5_months_overlapping_range (s e : Date) (hsv : validDate s) (hev : validDate e) :
    (dateLe e s = true → split_range_by_month s e ⟨hsv.2.1, hsv.2.2.1⟩ = []) ∧
    (dateLt s e = true →
      (split_range_by_month s e ⟨hsv.2.1, hsv.2.2.1⟩).head? = some (month_str s.y s.m)) ∧
    (split_range_by_month s e ⟨hsv.2.1, hsv.2.2.1⟩).Nodup ∧
    (∀ str ∈ split_range_by_month s e ⟨hsv.2.1, hsv.2.2.1⟩,
      ∃ y m, 1 ≤ m ∧ m ≤ 12 ∧ str = month_str y m) ∧
    (dateLt s e = true → ∀ y m, 1 ≤ m → m ≤ 12 →
      (month_str y m ∈ split_range_by_month s e ⟨hsv.2.1, hsv.2.2.1⟩ ↔
        monthIntersects y m s e = true)) ∧
    List.Pairwise (fun a b => strIdx a < strIdx b)
      (split_range_by_month s e ⟨hsv.2.1, hsv.2.2.1⟩) := by
  obtain ⟨hy1, hm1, hm2, hd1, hd2⟩ := hsv
  by_cases hle : dateLe e s = true
  · have hempty : split_range_by_month s e ⟨hm1, hm2⟩ = [] := by
      unfold split_range_by_month
      rw [if_pos hle]
    refine ⟨fun _ => hempty, ?_, ?_, ?_, ?_, ?_⟩
    · intro hlt
      rw [dateLe_false_of_lt hlt] at hle
      exact absurd hle (by simp)
    · rw [hempty]; exact List.nodup_nil
    · rw [hempty]; intro str h; simp at h
    · intro hlt
      rw [dateLe_false_of_lt hlt] at hle
      exact absurd hle (by simp)
    · rw [hempty]; exact List.Pairwise.nil
  · have heq := split_range_eq_loop ⟨hm1, hm2⟩ hd1 hle
    have hlt := dateLt_of_not_le hle
    have hfirst := dateLt_first_of_lt hd1 hlt
    obtain ⟨t, ht⟩ := @splitLoop_head _ _ _ ⟨hm1, hm2⟩ hfirst
    refine ⟨?_, ?_, ?_, ?_, ?_, ?_⟩
    · intro hle'; exact absurd hle' hle
    · intro _
      rw [heq, ht]
      rfl
    · rw [heq]; exact splitLoop_nodup
    · rw [heq]
      intro str hstr
      obtain ⟨y', m', a1, a2, a3, _, _⟩ := splitLoop_elems str hstr
      exact ⟨y', m', a1, a2, a3⟩
    · intro _ y m h1 h2
      rw [heq, splitLoop_mem h1 h2]
      unfold monthIntersects
      rw [Bool.and_eq_true]
      constructor
      · rintro ⟨hidx, hl⟩
        exact ⟨hl, (start_idx_le_iff hm1 hm2 hd1 h1 h2).mp hidx⟩
      · rintro ⟨hl, hsucc⟩
        exact ⟨(start_idx_le_iff hm1 hm2 hd1 h1 h2).mpr hsucc, hl⟩
    · rw [heq]; exact splitLoop_pairwise

/-- Witness for C5 at a concrete range `[2024-11-15, 2025-02-01)`. -/
theorem C5_months_overlapping_range_witness :
    month_str 2024 12 ∈ split_range_by_month ⟨2024, 11, 15⟩ ⟨2025, 2, 1⟩ (by decide) := by
  have h := C5_months_overlapping_range ⟨2024, 11, 15⟩ ⟨2025, 2, 1⟩ (by decide) (by decide)
  exact (h.2.2.2.2.1 (by decide) 2024 12 (by decide) (by decide)).mpr (by decide)

theorem parse_yyyy_mm_month_bounds {s : String} {y m : Nat}
    (hp : parse_yyyy_mm s = some (y, m)) : 1 ≤ m ∧ m ≤ 12 := by
  unfold parse_yyyy_mm at hp
  rcases hsplit : splitOnC '-' (pyStrip s.data) with _ | ⟨a, rest⟩
  · rw [hsplit] at hp; simp at hp
  · rcases rest with _ | ⟨b, rest2⟩
    · rw [hsplit] at hp; simp at hp
    · rcases rest2 with _ | ⟨c, rest3⟩
      · rw [hsplit] at hp
        simp only at hp
        rcases ha : toNatPy a with _ | ya
        · rw [ha] at hp; simp at hp
        · rcases hb : toNatPy b with _ | mb
          · rw [ha, hb] at hp; simp at hp
          · rw [ha, hb] at hp
            simp only at hp
            split at hp
            · simp at hp
            · rename_i hcond
              simp only [Option.some.injEq, Prod.mk.injEq] at hp
              omega
      · rw [hsplit] at hp; simp at hp

/-- C2 counterexample: the spec says a December input wraps to January of the
previous year, but `prev_month_str "2024-12"` is `"2024-11"` (November of the
same year). -/
theorem C2_prev_month_counterexample :
    prev_month_str "2024-12" = some "2024-11" ∧
      (some "2024-11" : Option String) ≠ some "2023-01" := by
  constructor
  · decide
  · decide

/-- C2 (amended): for every parseable `"YYYY-MM"` string with year at least 1,
`previousPeriodMonth` returns the immediately preceding calendar month — the
month index `12*year + month` decreases by exactly one (so January wraps to
December of the previous year, and December yields November of the same
year). -/
theorem C2_prev_month_decrements {s : String} {y m : Nat}
    (hp : parse_yyyy_mm s = some (y, m)) (hy : 1 ≤ y) :
    ∃ y' m', prev_month_str s = some (month_str y' m') ∧ 1 ≤ m' ∧ m' ≤ 12 ∧
      12 * y' + m' + 1 = 12 * y + m := by
  have hb := parse_yyyy_mm_month_bounds hp
  unfold prev_month_str
  rw [hp]
  simp only
  by_cases h1 : m = 1
  · subst h1
    refine ⟨y - 1, 12, ?_, by omega, by omega, by omega⟩
    have hint : intDecimal ((y : Int) - 1) = natDecimal (y - 1) := by
      unfold intDecimal
      rw [if_neg (by omega)]
      congr 1
      omega
    simp only [if_pos rfl, hint]
    rfl
  · refine ⟨y, m - 1, ?_, by omega, by omega, by omega⟩
    rw [if_neg h1]
    rfl

/-- Witness for C2 at the concrete input `"2024-03"`. -/
theorem C2_prev_month_decrements_witness :
    ∃ y' m', prev_month_str "2024-03" = some (month_str y' m') ∧ 1 ≤ m' ∧ m' ≤ 12 ∧
      12 * y' + m' + 1 = 12 * 2024 + 3 :=
  C2_prev_month_decrements (by decide) (by decide)

/-- C8: for every parseable `"YYYY-MM"` (year at least 1), `monthBoundsUtc`
returns the pair (first instant of the month, first instant of the following
month) — December rolling over to January of the next year — and the ordinal
difference `end - start` is the exact number of days in that month. -/
theorem C8_month_bounds_utc {s : String} {y m : Nat}
    (hp : parse_yyyy_mm s = some (y, m)) (hy : 1 ≤ y) :
    month_bounds_utc s = some (⟨y, m, 1⟩, monthSucc y m) ∧
    (m = 12 → monthSucc y m = ⟨y + 1, 1, 1⟩) ∧
    ymd2ord (monthSucc y m).y (monthSucc y m).m (monthSucc y m).d
      = ymd2ord y m 1 + days_in_month y m := by
  have hb := parse_yyyy_mm_month_bounds hp
  refine ⟨?_, ?_, ?_⟩
  · unfold month_bounds_utc
    rw [hp]
  · intro h12
    subst h12
    simp [monthSucc]
  · have hspan := month_span y m hy hb.1 hb.2
    by_cases h12 : m = 12
    · subst h12
      rw [if_pos rfl] at hspan
      have hms : monthSucc y 12 = ⟨y + 1, 1, 1⟩ := by simp [monthSucc]
      rw [hms]
      exact hspan
    · rw [if_neg h12] at hspan
      have hms : monthSucc y m = ⟨y, m + 1, 1⟩ := by simp [monthSucc, h12]
      rw [hms]
      exact hspan

/-- Witness for C8 at the concrete input `"2024-02"` (a leap February). -/
theorem C8_month_bounds_utc_witness :
    month_bounds_utc "2024-02" = some (⟨2024, 2, 1⟩, monthSucc 2024 2) ∧
    ((2 : Nat) = 12 → monthSucc 2024 2 = ⟨2025, 1, 1⟩) ∧
    ymd2ord (monthSucc 2024 2).y (monthSucc 2024 2).m (monthSucc 2024 2).d
      = ymd2ord 2024 2 1 + days_in_month 2024 2 := by
  have h := C8_month_bounds_utc (s := "2024-02") (y := 2024) (m := 2) (by decide) (by decide)
  exact ⟨h.1, fun hc => absurd hc (by decide), h.2.2⟩

/-! ### Entries, keyword classifiers (analytics.py lines 11–24, 142–202) -/

/-- A value stored in an entry's `amount` field: either something `float(x)`
coerces to a number (int, float, numeric string — modelled by the exact
rational it denotes), or a value on which `float` raises. -/
inductive AmountVal where
  | num (q : ℚ)
  | nonnum
deriving DecidableEq

/-- An entry's `created_at` field: absent/unparseable (both make `_parse_ts`
return `None`), or a parseable timestamp, abstracted by the UTC day key that
`_day_key` would produce for it (the embedding does not re-implement
ISO-8601 parsing; only the day bucket matters to the insight engine). -/
inductive TsVal where
  | missing
  | unparseable
  | parsedDay (dayKey : String)
deriving DecidableEq

def tsParses : TsVal → Bool
  | .parsedDay _ => true
  | _ => false

structure Entry where
  amount : Option AmountVal
  created_at : TsVal
  title : Option String
  beneficiary_name : Option String
  raw_text : Option String
  category : Option String
  category_normalized : Option String
deriving DecidableEq

/-- Embeds `_to_float(x)`: the coerced number, `0.0` when `float` raises or the
field is absent (`float(None)` raises). -/
def to_float : Option AmountVal → ℚ
  | some (.num q) => q
  | some .nonnum => 0
  | none => 0

/-- Python `str.lower()` (ASCII; the keyword tables are all ASCII). -/
def pyLower (s : String) : String := ⟨s.data.map Char.toLower⟩

def pyStripStr (s : String) : String := ⟨pyStrip s.data⟩

def orEmpty : Option String → String
  | none => ""
  | some s => s

/-- Python `needle in hay` substring containment. -/
def containsSubstr (hay needle : String) : Bool :=
  hay.data.tails.any (fun t => needle.data.isPrefixOf t)

def RESTAURANT_KEYWORDS : List String :=
  ["kfc", "mcdonald", "mc donald", "dominos", "domino", "pizza", "burger", "shawarma",
   "restaurant", "cafe", "coffee", "bistro", "foodpanda", "food panda", "careem food",
   "delivery", "dine", "bbq", "karahi", "nihari"]

def HOME_FOOD_KEYWORDS : List String :=
  ["grocery", "super", "mart", "store", "cash&carry", "cash and carry", "imtiyaz", "metro",
   "utility store", "ration", "kirana"]

def FOOD_EXPENSIVE_RS : ℚ := 1800

def NECESSITY_BASE : List String :=
  ["rent", "grocery", "utility", "fuel", "transport", "health", "education"]

def DISCRETIONARY_BASE : List String :=
  ["shopping", "entertainment", "charity", "subscriptions", "travel"]

/-- Embeds `_text_blob(entry)`: join the five text fields (skipping absent and empty
ones, both falsy in Python) with spaces, lower-cased. -/
def text_blob (e : Entry) : String :=
  pyLower (String.intercalate " "
    ((([e.title, e.beneficiary_name, e.raw_text, e.category,
        e.category_normalized].filterMap id).filter (fun s => s ≠ ""))))

/-- Embeds `normalize_category(entry)` (analytics.py lines 169–190). -/
def normalize_category (e : Entry) : String :=
  let cn := pyLower (pyStripStr (orEmpty e.category_normalized))
  if cn ≠ "" then cn
  else
    let c := pyLower (pyStripStr (orEmpty e.category))
    if containsSubstr c "utility" then "utility"
    else if containsSubstr c "fund" || containsSubstr c "transfer" then "funds_transfer"
    else if containsSubstr c "groc" then "grocery"
    else if containsSubstr c "shop" then "shopping"
    else if containsSubstr c "fuel" || containsSubstr c "petrol" then "fuel"
    else if containsSubstr c "food" then "food"
    else if containsSubstr c "rent" then "rent"
    else if c ≠ "" then c else "other"

def hasKeyword (ks : List String) (blob : String) : Bool :=
  ks.any (fun k => containsSubstr blob k)

/-- Embeds `classify_food_unnecessary(entry)` (analytics.py lines 192–202). -/
def classify_food_unnecessary (e : Entry) : Bool × String :=
  let blob := text_blob e
  let amt := to_float e.amount
  if hasKeyword HOME_FOOD_KEYWORDS blob then (false, "home_food_keyword")
  else if hasKeyword RESTAURANT_KEYWORDS blob then (true, "restaurant_keyword")
  else if FOOD_EXPENSIVE_RS ≤ amt then (true, "expensive_food_amount")
  else (false, "unknown_food_type")

/-! ### The insight engine (analytics.py lines 207–306) -/

/-- A budget row (fetched by `fetch_month_budget`: numeric-or-NULL
`budget_amount`/`amount` columns plus `home_city`). -/
structure BudgetRow where
  budget_amount : Option ℚ
  amount : Option ℚ
  home_city : Option String
deriving DecidableEq

/-- Python `a or b` for optional numeric fields: `b` when `a` is falsy
(absent or equal to `0.0`). -/
def pyOrOpt (a b : Option ℚ) : Option ℚ :=
  match a with
  | some q => if q = 0 then b else some q
  | none => b

def to_floatQ : Option ℚ → ℚ
  | some q => q
  | none => 0

/-- Embeds `(budget_row.get("home_city") or "").strip() or None`. -/
def resolveHomeCity (h : Option String) : Option String :=
  let s := pyStripStr (orEmpty h)
  if s = "" then none else some s

/-- Insertion-ordered `defaultdict(float)` update: `d[k] += v`. -/
def upsert (l : List (String × ℚ)) (k : String) (v : ℚ) : List (String × ℚ) :=
  match l with
  | [] => [(k, v)]
  | (k', v') :: t => if k' = k then (k', v' + v) :: t else (k', v') :: upsert t k v

/-- Embeds `d.get(k, default)`. -/
def lookupD (l : List (String × ℚ)) (k : String) (d : ℚ) : ℚ :=
  match l with
  | [] => d
  | (k', v') :: t => if k' = k then v' else lookupD t k d

def EXCLUDE_CATS : List String := ["funds_transfer"]

/-- The running accumulators of the entry loop in `compute_insights`. -/
structure Acc where
  spent : ℚ
  totals : List (String × ℚ)
  daily : List (String × ℚ)
  discretionary : ℚ
  restaurant_food : ℚ
deriving DecidableEq

/-- One iteration of the `for e in entries` loop of `compute_insights`
(analytics.py lines 226–249). -/
def insightStep (acc : Acc) (e : Entry) : Acc :=
  let amt := to_float e.amount
  if amt ≤ 0 then acc
  else
    let catn := normalize_category e
    if catn ∈ EXCLUDE_CATS then acc
    else
      let acc1 : Acc :=
        { acc with spent := acc.spent + amt, totals := upsert acc.totals catn amt }
      let acc2 : Acc :=
        match e.created_at with
        | .parsedDay k => { acc1 with daily := upsert acc1.daily k amt }
        | _ => acc1
      let acc3 : Acc :=
        if catn ∈ DISCRETIONARY_BASE then
          { acc2 with discretionary := acc2.discretionary + amt }
        else acc2
      if catn = "food" then
        (if (classify_food_unnecessary e).1 then
          { acc3 with restaurant_food := acc3.restaurant_food + amt,
                      discretionary := acc3.discretionary + amt }
         else acc3)
      else acc3

def insightsAcc (entries : List Entry) : Acc :=
  entries.foldl insightStep ⟨0, [], [], 0, 0⟩

/-- Python `max(vals)` for a nonempty list (0 as junk value on `[]`). -/
def listMax : List ℚ → ℚ
  | [] => 0
  | v :: t => t.foldl max v

/-- Comma-grouping of the digits of a reversed numeral (for `{:,.0f}`). -/
def groupRev : List Char → Nat → List Char
  | [], _ => []
  | c :: t, k => if k == 3 then ',' :: c :: groupRev t 1 else c :: groupRev t (k + 1)

/-- Python `f"{n:,.0f}"` for a nonnegative integer-valued amount. -/
def fmtComma (n : Nat) : String := ⟨(groupRev (natDecimal n).reverse 0).reverse⟩

def over_budget_action (over : ℚ) : String :=
  "You are over budget by Rs. " ++ fmtComma (rhe over).toNat
    ++ ". Cut discretionary categories first."

/-- The result dictionary of `compute_insights`. -/
structure Insights where
  period : String
  period_key : Option String
  home_city : Option String
  budget_amount : ℚ
  spent_total : ℚ
  remaining : ℚ
  totals_by_category : List (String × ℚ)
  top_categories : List (String × ℚ)
  discretionary_total : ℚ
  restaurant_food_total : ℚ
  warnings : List String
  actions : List String
deriving DecidableEq

/-- Embeds `compute_insights(entries, budget_row, period, period_key)`
(analytics.py lines 207–306). -/
def compute_insights (entries : List Entry) (b : BudgetRow) (period : String)
    (period_key : Option String) : Insights :=
  let budget_amount := to_floatQ (pyOrOpt b.budget_amount b.amount)
  let home_city := resolveHomeCity b.home_city
  let acc := insightsAcc entries
  let top := ((acc.totals.mergeSort (fun a b => decide (b.2 ≤ a.2))).take 5).map
    (fun kv => (kv.1, round2 kv.2))
  let rent := lookupD acc.totals "rent" 0
  let warnings :=
    (if 0 < budget_amount ∧ budget_amount < acc.spent then ["OVER_BUDGET"] else []) ++
    (if 0 < budget_amount ∧ (45/100 : ℚ) ≤ rent / budget_amount then ["RENT_HIGH"] else []) ++
    (if 0 < acc.spent ∧ (35/100 : ℚ) ≤ acc.discretionary / acc.spent ∧
        (10000 : ℚ) ≤ acc.discretionary then ["DISCRETIONARY_HIGH"] else []) ++
    (if 0 < acc.spent ∧ (15/100 : ℚ) ≤ acc.restaurant_food / acc.spent ∧
        (8000 : ℚ) ≤ acc.restaurant_food then ["RESTAURANT_FOOD_HIGH"] else []) ++
    (if acc.daily ≠ [] ∧
        (let vals := acc.daily.map (fun kv => kv.2)
         let avg_day := vals.sum / (max 1 vals.length : ℕ)
         let max_day := listMax vals
         0 < avg_day ∧ avg_day * (5/2 : ℚ) ≤ max_day ∧ (5000 : ℚ) ≤ max_day)
     then ["SPIKE_DETECTED"] else [])
  let actions :=
    (if "OVER_BUDGET" ∈ warnings ∧ 0 < budget_amount then
      [over_budget_action (acc.spent - budget_amount)] else []) ++
    (if "RENT_HIGH" ∈ warnings ∧ 0 < budget_amount then
      ["Rent is taking a very large share of your budget. Consider negotiating rent, sharing accommodation, or relocating."] else []) ++
    (if "DISCRETIONARY_HIGH" ∈ warnings then
      ["Discretionary spending is high. Set a weekly cap and review non-essential transactions."] else []) ++
    (if "RESTAURANT_FOOD_HIGH" ∈ warnings then
      ["Restaurant/delivery food is high. Reduce dine-out frequency or switch to home meals for savings."] else []) ++
    (if "SPIKE_DETECTED" ∈ warnings then
      ["A spending spike was detected on one day. Review that day's transactions and tag the cause (shopping, dining, bills, etc.)."] else [])
  { period := period
    period_key := period_key
    home_city := home_city
    budget_amount := round2 budget_amount
    spent_total := round2 acc.spent
    remaining := round2 (if 0 < budget_amount then budget_amount - acc.spent else 0)
    totals_by_category := acc.totals.map (fun kv => (kv.1, round2 kv.2))
    top_categories := top
    discretionary_total := round2 acc.discretionary
    restaurant_food_total := round2 acc.restaurant_food
    warnings := warnings
    actions := actions }

theorem foldl_invariant {P : Acc → Prop} :
    ∀ (entries : List Entry), (∀ acc e, e ∈ entries → P acc → P (insightStep acc e)) →
    ∀ acc, P acc → P (entries.foldl insightStep acc) := by
  intro entries
  induction entries with
  | nil => intro _ acc h; exact h
  | cons e es ih =>
    intro hstep acc h
    exact ih (fun acc' e' he' => hstep acc' e' (by simp [he'])) _
      (hstep acc e (by simp) h)

theorem insightStep_rest_le_disc (acc : Acc) (e : Entry)
    (h : acc.restaurant_food ≤ acc.discretionary) :
    (insightStep acc e).restaurant_food ≤ (insightStep acc e).discretionary := by
  unfold insightStep
  have hamt : to_float e.amount ≤ 0 ∨ 0 < to_float e.amount := by
    rcases le_or_lt (to_float e.amount) 0 with h' | h'
    · exact Or.inl h'
    · exact Or.inr h'
  cases hc : e.created_at <;>
    (dsimp only; split_ifs <;> simp_all <;> linarith)

/-- C10: in every `computeInsights` result, `restaurant_food_total` is at most
`discretionary_total`: every amount added to the restaurant-food accumulator
is simultaneously added to the discretionary accumulator, and the 2-decimal
output rounding is monotone, hence preserves the inequality. -/
theorem C10_restaurant_food_le_discretionary (entries : List Entry) (b : BudgetRow)
    (p : String) (pk : Option String) :
    (compute_insights entries b p pk).restaurant_food_total
      ≤ (compute_insights entries b p pk).discretionary_total := by
  unfold compute_insights
  dsimp only
  apply round2_mono
  exact foldl_invariant (P := fun a => a.restaurant_food ≤ a.discretionary) entries
    (fun acc e _ h => insightStep_rest_le_disc acc e h) _ (le_refl 0)

theorem upsert_sum (l : List (String × ℚ)) (k : String) (v : ℚ) :
    ((upsert l k v).map (fun kv => kv.2)).sum = (l.map (fun kv => kv.2)).sum + v := by
  induction l with
  | nil => simp [upsert]
  | cons kv t ih =>
    obtain ⟨k', v'⟩ := kv
    unfold upsert
    split
    · simp
      ring
    · simp [ih]
      ring

theorem upsert_forall {Q : ℚ → Prop} {l : List (String × ℚ)} {k : String} {v : ℚ}
    (hl : ∀ kv ∈ l, Q kv.2) (hv : Q v) (hadd : ∀ a b, Q a → Q b → Q (a + b)) :
    ∀ kv ∈ upsert l k v, Q kv.2 := by
  induction l with
  | nil =>
    intro kv hkv
    simp [upsert] at hkv
    rw [hkv]
    exact hv
  | cons kv0 t ih =>
    obtain ⟨k', v'⟩ := kv0
    intro kv hkv
    unfold upsert at hkv
    split at hkv
    · rcases List.mem_cons.mp hkv with h | h
      · rw [h]
        exact hadd _ _ (hl (k', v') (by simp)) hv
      · exact hl kv (by simp [h])
    · rcases List.mem_cons.mp hkv with h | h
      · rw [h]
        exact hl (k', v') (by simp)
      · exact ih (fun kv' hkv' => hl kv' (by simp [hkv'])) kv h

/-- The bookkeeping invariant behind C1: the raw `spent` accumulator equals
the sum of the per-category accumulators, and (under centi-valued amounts)
every accumulator is a whole number of hundredths. -/
def SumInv (acc : Acc) : Prop :=
  acc.spent = (acc.totals.map (fun kv => kv.2)).sum ∧
  (∀ kv ∈ acc.totals, Centi kv.2) ∧ Centi acc.spent

theorem insightStep_SumInv {acc : Acc} {e : Entry} (hc : Centi (to_float e.amount))
    (h : SumInv acc) : SumInv (insightStep acc e) := by
  obtain ⟨h1, h2, h3⟩ := h
  unfold insightStep
  cases hts : e.created_at <;>
    (dsimp only; split_ifs <;>
      first
        | exact ⟨h1, h2, h3⟩
        | refine ⟨?_, ?_, ?_⟩ <;>
            first
              | exact h3.add hc
              | exact upsert_forall h2 hc (fun a b ha hb => ha.add hb)
              | (simp only [upsert_sum]; rw [h1]))

/-- C1 counterexample input: one positive-amount `funds_transfer` entry and
one `grocery` entry. -/
def entryFT : Entry :=
  { amount := some (.num 100), created_at := .missing, title := none,
    beneficiary_name := none, raw_text := none, category := none,
    category_normalized := some "funds_transfer" }

def entryGroc : Entry :=
  { amount := some (.num 50), created_at := .missing, title := none,
    beneficiary_name := none, raw_text := none, category := none,
    category_normalized := some "grocery" }

def emptyBudgetRow : BudgetRow := { budget_amount := none, amount := none, home_city := none }

/-- The summed amounts of the positive-amount entries whose normalized
category lies in the exclusion set (the quantity the C1 claim subtracts). -/
def excludedSum (entries : List Entry) : ℚ :=
  ((entries.filter (fun e =>
      decide (0 < to_float e.amount) && decide (normalize_category e ∈ EXCLUDE_CATS))).map
    (fun e => to_float e.amount)).sum

/-- C1 counterexample: with a positive-amount `funds_transfer` entry present,
the `totals_by_category` values sum to `spent_total` itself, not to
`spent_total` minus the excluded amounts — excluded entries are skipped
before they ever reach `spent`. -/
theorem C1_totals_sum_counterexample :
    ¬ ((((compute_insights [entryFT, entryGroc] emptyBudgetRow "month" none).totals_by_category).map
          (fun kv => kv.2)).sum
        = (compute_insights [entryFT, entryGroc] emptyBudgetRow "month" none).spent_total
            - excludedSum [entryFT, entryGroc]) := by
  have hacc : insightsAcc [entryFT, entryGroc] = ⟨50, [("grocery", 50)], [], 0, 0⟩ := by
    unfold insightsAcc
    show insightStep (insightStep ⟨0, [], [], 0, 0⟩ entryFT) entryGroc = _
    have hs1 : insightStep ⟨0, [], [], 0, 0⟩ entryFT = ⟨0, [], [], 0, 0⟩ := by
      unfold insightStep
      simp +decide [entryFT, to_float, EXCLUDE_CATS]
    rw [hs1]
    unfold insightStep
    simp +decide [entryGroc, to_float, EXCLUDE_CATS, DISCRETIONARY_BASE, upsert]
  have hex : excludedSum [entryFT, entryGroc] = 100 := by
    unfold excludedSum
    simp +decide [entryFT, entryGroc, to_float, EXCLUDE_CATS]
  have hr : round2 (50 : ℚ) = 50 := round2_centi ⟨5000, by norm_num⟩
  unfold compute_insights
  dsimp only
  rw [hacc, hex]
  simp only [List.map_map, List.map_cons, List.map_nil, List.sum_cons, List.sum_nil,
    Function.comp]
  rw [hr]
  intro hEq
  norm_num at hEq

/-- C1 (amended): when every entry amount is a whole number of hundredths (so
the 2-decimal output rounding is exact), the `totals_by_category` values sum
to `spent_total` exactly; excluded (`funds_transfer`) positive-amount entries
contribute to neither side, having been skipped before any accumulation. -/
theorem C1_totals_sum_amended (entries : List Entry) (b : BudgetRow) (p : String)
    (pk : Option String) (hc : ∀ e ∈ entries, Centi (to_float e.amount)) :
    (((compute_insights entries b p pk).totals_by_category).map (fun kv => kv.2)).sum
      = (compute_insights entries b p pk).spent_total := by
  have hinv : SumInv (insightsAcc entries) := by
    apply foldl_invariant (P := SumInv) entries
      (fun acc e he h => insightStep_SumInv (hc e he) h)
    exact ⟨by simp, by simp, Centi.zero⟩
  obtain ⟨h1, h2, h3⟩ := hinv
  unfold compute_insights
  dsimp only
  rw [List.map_map]
  have hmap : (insightsAcc entries).totals.map
        ((fun kv : String × ℚ => kv.2) ∘ (fun kv : String × ℚ => (kv.1, round2 kv.2)))
      = (insightsAcc entries).totals.map (fun kv => kv.2) := by
    apply List.map_congr_left
    intro kv hkv
    simp only [Function.comp_apply]
    exact round2_centi (h2 kv hkv)
  rw [hmap, ← h1, round2_centi h3]

/-- Witness for the amended C1 at a concrete one-entry input. -/
theorem C1_totals_sum_amended_witness :
    (((compute_insights [entryGroc] emptyBudgetRow "month" none).totals_by_category).map
        (fun kv => kv.2)).sum
      = (compute_insights [entryGroc] emptyBudgetRow "month" none).spent_total := by
  apply C1_totals_sum_amended
  intro e he
  simp only [List.mem_singleton] at he
  subst he
  exact ⟨5000, by norm_num [entryGroc, to_float]⟩

theorem upsert_pos {l : List (String × ℚ)} {k : String} {v : ℚ}
    (hl : ∀ kv ∈ l, 0 < kv.2) (hv : 0 < v) : ∀ kv ∈ upsert l k v, 0 < kv.2 :=
  upsert_forall hl hv (fun a b ha hb => by linarith)

theorem insightStep_daily_pos {acc : Acc} {e : Entry}
    (h : ∀ kv ∈ acc.daily, 0 < kv.2) :
    ∀ kv ∈ (insightStep acc e).daily, 0 < kv.2 := by
  unfold insightStep
  cases hts : e.created_at <;>
    (dsimp only; split_ifs <;>
      first
        | exact h
        | exact upsert_pos h (by linarith))

theorem insightsAcc_daily_pos (entries : List Entry) :
    ∀ kv ∈ (insightsAcc entries).daily, 0 < kv.2 := by
  apply foldl_invariant (P := fun a => ∀ kv ∈ a.daily, 0 < kv.2) entries
    (fun acc e _ h => insightStep_daily_pos h)
  intro kv hkv
  simp at hkv

/-- C3: the warnings list of `computeInsights` is exactly the subsequence of
`[OVER_BUDGET, RENT_HIGH, DISCRETIONARY_HIGH, RESTAURANT_FOOD_HIGH,
SPIKE_DETECTED]`, in that fixed order, containing each code iff its condition
holds — with the conditions exactly as the claim states them (in particular,
`SPIKE_DETECTED` needs only a nonempty day bucket, `maxDay ≥ 2.5 · avgDay`
and `maxDay ≥ 5000`, the average being over days that have transactions: the
code's extra `avg_day > 0` test is implied because every bucket is a sum of
positive amounts). -/
theorem C3_warnings_exact (entries : List Entry) (b : BudgetRow) (p : String)
    (pk : Option String) :
    (compute_insights entries b p pk).warnings =
      (if 0 < to_floatQ (pyOrOpt b.budget_amount b.amount) ∧
          to_floatQ (pyOrOpt b.budget_amount b.amount) < (insightsAcc entries).spent
       then ["OVER_BUDGET"] else []) ++
      (if 0 < to_floatQ (pyOrOpt b.budget_amount b.amount) ∧
          (45/100 : ℚ) ≤ lookupD (insightsAcc entries).totals "rent" 0
              / to_floatQ (pyOrOpt b.budget_amount b.amount)
       then ["RENT_HIGH"] else []) ++
      (if 0 < (insightsAcc entries).spent ∧
          (35/100 : ℚ) ≤ (insightsAcc entries).discretionary / (insightsAcc entries).spent ∧
          (10000 : ℚ) ≤ (insightsAcc entries).discretionary
       then ["DISCRETIONARY_HIGH"] else []) ++
      (if 0 < (insightsAcc entries).spent ∧
          (15/100 : ℚ) ≤ (insightsAcc entries).restaurant_food / (insightsAcc entries).spent ∧
          (8000 : ℚ) ≤ (insightsAcc entries).restaurant_food
       then ["RESTAURANT_FOOD_HIGH"] else []) ++
      (if ((insightsAcc entries).daily.map (fun kv => kv.2)) ≠ [] ∧
          (5/2 : ℚ) * (((insightsAcc entries).daily.map (fun kv => kv.2)).sum
              / ((((insightsAcc entries).daily.map (fun kv => kv.2)).length : ℕ) : ℚ))
            ≤ listMax ((insightsAcc entries).daily.map (fun kv => kv.2)) ∧
          (5000 : ℚ) ≤ listMax ((insightsAcc entries).daily.map (fun kv => kv.2))
       then ["SPIKE_DETECTED"] else []) := by
  unfold compute_insights
  dsimp only
  congr 1
  apply if_congr ?_ rfl rfl
  have hpos := insightsAcc_daily_pos entries
  constructor
  · rintro ⟨hne, havg, h1, h2⟩
    have hne' : (insightsAcc entries).daily.map (fun kv => kv.2) ≠ [] := by
      simp only [ne_eq, List.map_eq_nil_iff]
      exact hne
    have hlen : max 1 ((insightsAcc entries).daily.map (fun kv => kv.2)).length
        = ((insightsAcc entries).daily.map (fun kv => kv.2)).length := by
      have : ((insightsAcc entries).daily.map (fun kv => kv.2)).length ≠ 0 := by
        simpa using hne'
      omega
    rw [hlen] at h1
    exact ⟨hne', by linarith, h2⟩
  · rintro ⟨hne', h1, h2⟩
    have hne : (insightsAcc entries).daily ≠ [] := by
      intro hd
      rw [hd] at hne'
      simp at hne'
    have hlen : max 1 ((insightsAcc entries).daily.map (fun kv => kv.2)).length
        = ((insightsAcc entries).daily.map (fun kv => kv.2)).length := by
      have : ((insightsAcc entries).daily.map (fun kv => kv.2)).length ≠ 0 := by
        simp only [ne_eq, List.length_eq_zero]
        intro hh
        exact absurd hh hne'
      omega
    refine ⟨hne, ?_⟩
    rw [hlen]
    refine ⟨?_, by linarith, h2⟩
    apply div_pos
    · apply List.sum_pos
      · intro a ha
        obtain ⟨kv, hkv, rfl⟩ := List.mem_map.mp ha
        exact hpos kv hkv
      · exact hne'
    · have : 0 < ((insightsAcc entries).daily.map (fun kv => kv.2)).length := by
        cases hmap : (insightsAcc entries).daily.map (fun kv => kv.2) with
        | nil => exact absurd hmap hne'
        | cons a t => simp
      exact_mod_cast this

theorem insightStep_skip_bad_amount {acc : Acc} {e : Entry}
    (h : e.amount = none ∨ e.amount = some .nonnum) : insightStep acc e = acc := by
  have h0 : to_float e.amount = 0 := by
    rcases h with h | h <;> rw [h] <;> rfl
  unfold insightStep
  rw [h0]
  simp

/-- C9: `computeInsights` never fails on a malformed entry. An entry whose
amount is missing or non-numeric is coerced to `0.0`, hence skipped entirely:
the whole result is as if the entry were absent. An entry whose `created_at`
does not parse is excluded from the daily buckets only: the step leaves
`daily` untouched yet updates `spent`, `totals_by_category`,
`discretionary` and `restaurant_food` exactly as it would for the same entry
carrying any parseable timestamp. -/
theorem C9_malformed_entries :
    (∀ (es1 es2 : List Entry) (b : BudgetRow) (p : String) (pk : Option String)
        (e : Entry), (e.amount = none ∨ e.amount = some .nonnum) →
      compute_insights (es1 ++ e :: es2) b p pk = compute_insights (es1 ++ es2) b p pk) ∧
    (∀ (acc : Acc) (e : Entry), tsParses e.created_at = false →
      (insightStep acc e).daily = acc.daily ∧
      ∀ k : String,
        (insightStep acc e).spent
            = (insightStep acc { e with created_at := .parsedDay k }).spent ∧
        (insightStep acc e).totals
            = (insightStep acc { e with created_at := .parsedDay k }).totals ∧
        (insightStep acc e).discretionary
            = (insightStep acc { e with created_at := .parsedDay k }).discretionary ∧
        (insightStep acc e).restaurant_food
            = (insightStep acc { e with created_at := .parsedDay k }).restaurant_food) := by
  constructor
  · intro es1 es2 b p pk e h
    have hacc : insightsAcc (es1 ++ e :: es2) = insightsAcc (es1 ++ es2) := by
      unfold insightsAcc
      rw [List.foldl_append, List.foldl_append, List.foldl_cons,
        insightStep_skip_bad_amount h]
    unfold compute_insights
    rw [hacc]
  · intro acc e hts
    cases hc : e.created_at with
    | parsedDay k => rw [hc] at hts; simp [tsParses] at hts
    | missing =>
      constructor
      · unfold insightStep
        rw [hc]
        dsimp only
        split_ifs <;> simp
      · intro k
        have hnorm : normalize_category { e with created_at := TsVal.parsedDay k }
            = normalize_category e := rfl
        have hcls : classify_food_unnecessary { e with created_at := TsVal.parsedDay k }
            = classify_food_unnecessary e := rfl
        have hamt : to_float (Entry.amount { e with created_at := TsVal.parsedDay k })
            = to_float e.amount := rfl
        unfold insightStep
        rw [hc, hnorm, hcls, hamt]
        dsimp only
        split_ifs <;> simp
    | unparseable =>
      constructor
      · unfold insightStep
        rw [hc]
        dsimp only
        split_ifs <;> simp
      · intro k
        have hnorm : normalize_category { e with created_at := TsVal.parsedDay k }
            = normalize_category e := rfl
        have hcls : classify_food_unnecessary { e with created_at := TsVal.parsedDay k }
            = classify_food_unnecessary e := rfl
        have hamt : to_float (Entry.amount { e with created_at := TsVal.parsedDay k })
            = to_float e.amount := rfl
        unfold insightStep
        rw [hc, hnorm, hcls, hamt]
        dsimp only
        split_ifs <;> simp

/-- Witness for C9 at concrete inputs: a missing-amount entry inserted into a
one-entry list, and an unparseable-timestamp entry at a concrete
accumulator. -/
theorem C9_malformed_entries_witness :
    compute_insights ([entryGroc] ++
        { amount := none, created_at := .missing, title := none,
          beneficiary_name := none, raw_text := none, category := none,
          category_normalized := none } :: []) emptyBudgetRow "month" none
      = compute_insights ([entryGroc] ++ []) emptyBudgetRow "month" none ∧
    (insightStep ⟨0, [], [], 0, 0⟩
        { entryGroc with created_at := .unparseable }).daily = [] := by
  constructor
  · exact C9_malformed_entries.1 [entryGroc] [] emptyBudgetRow "month" none _
      (Or.inl rfl)
  · exact (C9_malformed_entries.2 ⟨0, [], [], 0, 0⟩
      { entryGroc with created_at := .unparseable } (by decide)).1

/-- C6: `normalizeCategory` returns the trimmed lower-cased
`category_normalized` field when that is non-empty; otherwise it tests the
trimmed lower-cased raw category for substrings in the fixed priority order
utility → fund/transfer → groc → shop → fuel/petrol → food → rent, the first
match winning; and when nothing matches it returns the trimmed lower-cased
raw category, or `"other"` when that is empty. -/
theorem C6_normalize_category (e : Entry) :
    (pyLower (pyStripStr (orEmpty e.category_normalized)) ≠ "" →
      normalize_category e = pyLower (pyStripStr (orEmpty e.category_normalized))) ∧
    (pyLower (pyStripStr (orEmpty e.category_normalized)) = "" →
      (let c := pyLower (pyStripStr (orEmpty e.category))
       (containsSubstr c "utility" = true → normalize_category e = "utility") ∧
       (containsSubstr c "utility" = false →
         (containsSubstr c "fund" = true ∨ containsSubstr c "transfer" = true) →
         normalize_category e = "funds_transfer") ∧
       (containsSubstr c "utility" = false → containsSubstr c "fund" = false →
         containsSubstr c "transfer" = false → containsSubstr c "groc" = true →
         normalize_category e = "grocery") ∧
       (containsSubstr c "utility" = false → containsSubstr c "fund" = false →
         containsSubstr c "transfer" = false → containsSubstr c "groc" = false →
         containsSubstr c "shop" = true →
         normalize_category e = "shopping") ∧
       (containsSubstr c "utility" = false → containsSubstr c "fund" = false →
         containsSubstr c "transfer" = false → containsSubstr c "groc" = false →
         containsSubstr c "shop" = false →
         (containsSubstr c "fuel" = true ∨ containsSubstr c "petrol" = true) →
         normalize_category e = "fuel") ∧
       (containsSubstr c "utility" = false → containsSubstr c "fund" = false →
         containsSubstr c "transfer" = false → containsSubstr c "groc" = false →
         containsSubstr c "shop" = false → containsSubstr c "fuel" = false →
         containsSubstr c "petrol" = false → containsSubstr c "food" = true →
         normalize_category e = "food") ∧
       (containsSubstr c "utility" = false → containsSubstr c "fund" = false →
         containsSubstr c "transfer" = false → containsSubstr c "groc" = false →
         containsSubstr c "shop" = false → containsSubstr c "fuel" = false →
         containsSubstr c "petrol" = false → containsSubstr c "food" = false →
         containsSubstr c "rent" = true →
         normalize_category e = "rent") ∧
       (containsSubstr c "utility" = false → containsSubstr c "fund" = false →
         containsSubstr c "transfer" = false → containsSubstr c "groc" = false →
         containsSubstr c "shop" = false → containsSubstr c "fuel" = false →
         containsSubstr c "petrol" = false → containsSubstr c "food" = false →
         containsSubstr c "rent" = false →
         normalize_category e = (if c ≠ "" then c else "other")))) := by
  constructor
  · intro h
    unfold normalize_category
    rw [if_pos h]
  · intro h
    refine ⟨?_, ?_, ?_, ?_, ?_, ?_, ?_, ?_⟩ <;>
      (intros; unfold normalize_category; simp_all)

/-- A bare entry with only a raw category set. -/
def entryRawCat (c : Option String) : Entry :=
  { amount := none, created_at := .missing, title := none, beneficiary_name := none,
    raw_text := none, category := c, category_normalized := none }

/-- A bare entry with a title and an amount (for the food classifier). -/
def entryTitled (t : Option String) (q : ℚ) : Entry :=
  { amount := some (.num q), created_at := .missing, title := t,
    beneficiary_name := none, raw_text := none, category := none,
    category_normalized := none }

/-- Witness for C6 at concrete inputs: raw categories `"fund transfer"`
(fund precedes the food check), `"Grocery Store"`, and an empty category. -/
theorem C6_normalize_category_witness :
    normalize_category (entryRawCat (some "fund transfer")) = "funds_transfer" ∧
    normalize_category (entryRawCat (some "Grocery Store")) = "grocery" ∧
    normalize_category (entryRawCat none) = "other" := by
  refine ⟨?_, ?_, ?_⟩
  · exact (C6_normalize_category _).2 (by decide) |>.2.1 (by decide) (Or.inl (by decide))
  · exact ((C6_normalize_category _).2 (by decide)).2.2.1 (by decide) (by decide)
      (by decide) (by decide)
  · exact ((C6_normalize_category _).2 (by decide)).2.2.2.2.2.2.2 (by decide) (by decide)
      (by decide) (by decide) (by decide) (by decide) (by decide) (by decide) (by decide)

/-- C7: `classifyFood` returns `(false, home_food_keyword)` when the entry's
lower-cased text blob contains a home/grocery keyword (this check taking
priority over the restaurant check); else `(true, restaurant_keyword)` when
it contains a restaurant/delivery keyword; else `(true,
expensive_food_amount)` when the amount is at least 1800; else
`(false, unknown_food_type)`. -/
theorem C7_classify_food (e : Entry) :
    (hasKeyword HOME_FOOD_KEYWORDS (text_blob e) = true →
      classify_food_unnecessary e = (false, "home_food_keyword")) ∧
    (hasKeyword HOME_FOOD_KEYWORDS (text_blob e) = false →
      hasKeyword RESTAURANT_KEYWORDS (text_blob e) = true →
      classify_food_unnecessary e = (true, "restaurant_keyword")) ∧
    (hasKeyword HOME_FOOD_KEYWORDS (text_blob e) = false →
      hasKeyword RESTAURANT_KEYWORDS (text_blob e) = false →
      (1800 : ℚ) ≤ to_float e.amount →
      classify_food_unnecessary e = (true, "expensive_food_amount")) ∧
    (hasKeyword HOME_FOOD_KEYWORDS (text_blob e) = false →
      hasKeyword RESTAURANT_KEYWORDS (text_blob e) = false →
      to_float e.amount < (1800 : ℚ) →
      classify_food_unnecessary e = (false, "unknown_food_type")) := by
  refine ⟨?_, ?_, ?_, ?_⟩ <;>
    (intros
     unfold classify_food_unnecessary FOOD_EXPENSIVE_RS
     simp_all
     try linarith)

/-- Witness for C7 at concrete inputs matching the spec's examples. -/
theorem C7_classify_food_witness :
    classify_food_unnecessary (entryTitled (some "McDonald's") 500)
      = (true, "restaurant_keyword") ∧
    classify_food_unnecessary (entryTitled (some "Metro grocery") 5000)
      = (false, "home_food_keyword") ∧
    classify_food_unnecessary (entryTitled none 2000)
      = (true, "expensive_food_amount") ∧
    classify_food_unnecessary (entryTitled none 500)
      = (false, "unknown_food_type") := by
  refine ⟨?_, ?_, ?_, ?_⟩
  · exact (C7_classify_food _).2.1 (by decide) (by decide)
  · exact (C7_classify_food _).1 (by decide)
  · exact (C7_classify_food _).2.2.1 (by decide) (by decide) (by decide)
  · exact (C7_classify_food _).2.2.2 (by decide) (by decide) (by decide)

/-! ### Budget proration (analytics.py lines 96–137) -/

/-- The body of the per-month loop of `prorate_monthly_budget_for_range`: the
amount one month `m` adds to the running total. The collaborator
`B user m` models `fetch_month_budget`: `none` when no row exists, otherwise
`some f` where `f` is the row's `budget_amount` column (numeric or NULL).
`float(b.get("budget_amount") or 0.0)` is then `to_floatQ f`. The `none`
branch of `month_bounds_utc` is unreachable here: the months iterated over
come from `split_range_by_month`, whose elements always parse. -/
def monthContribution (u : String) (B : String → String → Option (Option ℚ))
    (s e : Date) (m : String) : ℚ :=
  match B u m with
  | none => 0
  | some bfield =>
    let monthly : ℚ := to_floatQ bfield
    if monthly ≤ 0 then 0
    else
      match month_bounds_utc m with
      | none => 0
      | some (ms, me) =>
        let overlap_start := dateMax s ms
        let overlap_end := dateMin e me
        if dateLe overlap_end overlap_start then 0
        else
          let dim : Int := (ymd2ord me.y me.m me.d : Int) - (ymd2ord ms.y ms.m ms.d : Int)
          let od : Int := (ymd2ord overlap_end.y overlap_end.m overlap_end.d : Int)
              - (ymd2ord overlap_start.y overlap_start.m overlap_start.d : Int)
          if dim ≤ 0 ∨ od ≤ 0 then 0
          else (monthly / (dim : ℚ)) * (od : ℚ)

/-- The running total of `prorate_monthly_budget_for_range` before the final
2-decimal rounding. -/
def prorateRaw (u : String) (s e : Date) (hs : 1 ≤ s.m ∧ s.m ≤ 12)
    (B : String → String → Option (Option ℚ)) : ℚ :=
  if dateLe e s then 0
  else ((split_range_by_month s e hs).map (monthContribution u B s e)).sum

/-- Embeds `prorate_monthly_budget_for_range(user_id, start, end)`. -/
def prorate_monthly_budget_for_range (u : String) (s e : Date)
    (hs : 1 ≤ s.m ∧ s.m ≤ 12) (B : String → String → Option (Option ℚ)) : ℚ :=
  round2 (prorateRaw u s e hs B)

theorem dateLt_trans {a b c : Date} (h1 : dateLt a b = true) (h2 : dateLt b c = true) :
    dateLt a c = true := by
  apply dateLt_iff.mpr
  have g1 := dateLt_iff.mp h1
  have g2 := dateLt_iff.mp h2
  omega

theorem dateLe_of_lt {a b : Date} (h : dateLt a b = true) : dateLe a b = true := by
  rw [dateLe, h]
  simp

theorem dateLe_lt_trans {a b c : Date} (h1 : dateLe a b = true) (h2 : dateLt b c = true) :
    dateLt a c = true := by
  rcases dateLe_iff.mp h1 with h | h
  · exact dateLt_trans h h2
  · subst h; exact h2

theorem dateLt_le_trans {a b c : Date} (h1 : dateLt a b = true) (h2 : dateLe b c = true) :
    dateLt a c = true := by
  rcases dateLe_iff.mp h2 with h | h
  · exact dateLt_trans h1 h
  · rw [← h]; exact h1

theorem dateMin_eq_right {a b : Date} (h : dateLe b a = true) : dateMin a b = b := by
  rcases dateLe_iff.mp h with hlt | heq
  · unfold dateMin
    rw [if_pos hlt]
  · subst heq
    unfold dateMin
    split <;> rfl

theorem dateMax_eq_right {a b : Date} (h : dateLe a b = true) : dateMax a b = b := by
  rcases dateLe_iff.mp h with hlt | heq
  · unfold dateMax
    rw [if_pos hlt]
  · subst heq
    unfold dateMax
    split <;> rfl

theorem monthFirst_le_of_idx {y m y' m' : Nat} (hm1 : 1 ≤ m) (hm2 : m ≤ 12)
    (hm1' : 1 ≤ m') (hm2' : m' ≤ 12) (h : 12 * y + m ≤ 12 * y' + m') :
    dateLe ⟨y, m, 1⟩ (⟨y', m', 1⟩ : Date) = true := by
  by_cases heq : 12 * y + m = 12 * y' + m'
  · have hy : y = y' ∧ m = m' := by omega
    apply dateLe_iff.mpr
    right
    rw [hy.1, hy.2]
  · apply dateLe_of_lt
    apply dateLt_iff.mpr
    simp only
    omega

/-- The partition lemma behind C4: splitting the loop of
`monthsOverlappingRange` at an interior month boundary. -/
theorem splitLoop_split {e : Date} {Y M : Nat} (hM : 1 ≤ M ∧ M ≤ 12)
    (he : dateLt ⟨Y, M, 1⟩ e = true) :
    ∀ k y m (hm : 1 ≤ m ∧ m ≤ 12), 12*y+m ≤ 12*Y+M → 12*Y+M - (12*y+m) ≤ k →
      splitLoop y m e hm = splitLoop y m ⟨Y, M, 1⟩ hm ++ splitLoop Y M e hM := by
  intro k
  induction k with
  | zero =>
    intro y m hm hle hk
    obtain ⟨rfl, rfl⟩ : y = Y ∧ m = M := by omega
    have hng : ¬ (dateLt ⟨y, m, 1⟩ (⟨y, m, 1⟩ : Date) = true) := by
      intro hg
      have := dateLt_iff.mp hg
      simp only at this
      omega
    conv_rhs => rw [splitLoop]
    rw [dif_neg hng]
    simp
  | succ k ih =>
    intro y m hm hle hk
    by_cases heq : 12*y+m = 12*Y+M
    · obtain ⟨rfl, rfl⟩ : y = Y ∧ m = M := by omega
      have hng : ¬ (dateLt ⟨y, m, 1⟩ (⟨y, m, 1⟩ : Date) = true) := by
        intro hg
        have := dateLt_iff.mp hg
        simp only at this
        omega
      conv_rhs => rw [splitLoop]
      rw [dif_neg hng]
      simp
    · have hg1 : dateLt ⟨y, m, 1⟩ (⟨Y, M, 1⟩ : Date) = true := by
        apply dateLt_iff.mpr
        simp only
        have := hm.1; have := hm.2; have := hM.1; have := hM.2
        omega
      have hge : dateLt ⟨y, m, 1⟩ e = true := dateLt_trans hg1 he
      conv_lhs => rw [splitLoop]
      rw [dif_pos hge]
      conv_rhs => rw [splitLoop]
      rw [dif_pos hg1]
      simp only [List.cons_append]
      congr 1
      by_cases h12 : m = 12
      · rw [dif_pos h12, dif_pos h12]
        exact ih (y+1) 1 _ (by omega) (by omega)
      · rw [dif_neg h12, dif_neg h12]
        exact ih y (m+1) _ (by omega) (by omega)

theorem split_range_partition {s e : Date} {Y M : Nat}
    (hs : 1 ≤ s.m ∧ s.m ≤ 12) (hd : 1 ≤ s.d) (hM : 1 ≤ M ∧ M ≤ 12)
    (h1 : dateLt s ⟨Y, M, 1⟩ = true) (h2 : dateLt ⟨Y, M, 1⟩ e = true) :
    split_range_by_month s e hs
      = split_range_by_month s ⟨Y, M, 1⟩ hs ++ split_range_by_month ⟨Y, M, 1⟩ e hM := by
  have hse : dateLt s e = true := dateLt_trans h1 h2
  have hne1 : ¬ (dateLe ⟨Y, M, 1⟩ s = true) := by
    rw [dateLe_false_of_lt h1]
    simp
  have hne2 : ¬ (dateLe e (⟨Y, M, 1⟩ : Date) = true) := by
    rw [dateLe_false_of_lt h2]
    simp
  have hne3 : ¬ (dateLe e s = true) := by
    rw [dateLe_false_of_lt hse]
    simp
  rw [split_range_eq_loop hs hd hne3, split_range_eq_loop hs hd hne1,
    split_range_eq_loop hM (by exact le_refl 1) hne2]
  have hidx : 12 * s.y + s.m ≤ 12 * Y + M := by
    have hc := dateLt_iff.mp h1
    simp only at hc
    have := hs.1; have := hs.2; have := hM.1; have := hM.2
    omega
  exact splitLoop_split hM h2 (12*Y+M - (12*s.y+s.m)) s.y s.m hs hidx (le_refl _)

theorem monthContribution_left {u : String} {B : String → String → Option (Option ℚ)}
    {s e mb : Date} {y' m' : Nat} (h1 : 1 ≤ m') (h2 : m' ≤ 12)
    (hmb : dateLe (monthSucc y' m') mb = true) (hme : dateLt mb e = true) :
    monthContribution u B s mb (month_str y' m')
      = monthContribution u B s e (month_str y' m') := by
  unfold monthContribution
  cases B u (month_str y' m') with
  | none => rfl
  | some bfield =>
    dsimp only
    split
    · rfl
    · have hbounds : month_bounds_utc (month_str y' m')
          = some (⟨y', m', 1⟩, monthSucc y' m') := by
        unfold month_bounds_utc
        rw [parse_month_str h1 h2]
      rw [hbounds]
      have hminmb : dateMin mb (monthSucc y' m') = monthSucc y' m' :=
        dateMin_eq_right hmb
      have hmine : dateMin e (monthSucc y' m') = monthSucc y' m' :=
        dateMin_eq_right (dateLe_of_lt (dateLe_lt_trans hmb hme))
      dsimp only
      rw [hminmb, hmine]

theorem monthContribution_right {u : String} {B : String → String → Option (Option ℚ)}
    {s e mb : Date} {y' m' : Nat} (h1 : 1 ≤ m') (h2 : m' ≤ 12)
    (hmb : dateLe mb ⟨y', m', 1⟩ = true) (hsmb : dateLt s mb = true) :
    monthContribution u B mb e (month_str y' m')
      = monthContribution u B s e (month_str y' m') := by
  unfold monthContribution
  cases B u (month_str y' m') with
  | none => rfl
  | some bfield =>
    dsimp only
    split
    · rfl
    · have hbounds : month_bounds_utc (month_str y' m')
          = some (⟨y', m', 1⟩, monthSucc y' m') := by
        unfold month_bounds_utc
        rw [parse_month_str h1 h2]
      rw [hbounds]
      have hmaxmb : dateMax mb ⟨y', m', 1⟩ = (⟨y', m', 1⟩ : Date) :=
        dateMax_eq_right hmb
      have hmaxs : dateMax s ⟨y', m', 1⟩ = (⟨y', m', 1⟩ : Date) :=
        dateMax_eq_right (dateLe_of_lt (dateLt_le_trans hsmb hmb))
      dsimp only
      rw [hmaxmb, hmaxs]

/-- C4: `prorateMonthlyBudget` is additive across a split of `[start, end)`
at any interior calendar-month boundary, for any fixed behaviour of the
budget-lookup collaborator: the pre-rounding totals are exactly equal, and
the three individually rounded results therefore differ by at most 0.015
(the claim's "up to the final rounding of each result"). -/
theorem C4_prorate_additive (u : String) (B : String → String → Option (Option ℚ))
    (s e : Date) (Y M : Nat) (hsv : validDate s) (hev : validDate e)
    (hM1 : 1 ≤ M) (hM2 : M ≤ 12)
    (h1 : dateLt s ⟨Y, M, 1⟩ = true) (h2 : dateLt ⟨Y, M, 1⟩ e = true) :
    prorateRaw u s ⟨Y, M, 1⟩ ⟨hsv.2.1, hsv.2.2.1⟩ B
        + prorateRaw u ⟨Y, M, 1⟩ e ⟨hM1, hM2⟩ B
      = prorateRaw u s e ⟨hsv.2.1, hsv.2.2.1⟩ B ∧
    |prorate_monthly_budget_for_range u s ⟨Y, M, 1⟩ ⟨hsv.2.1, hsv.2.2.1⟩ B
        + prorate_monthly_budget_for_range u ⟨Y, M, 1⟩ e ⟨hM1, hM2⟩ B
        - prorate_monthly_budget_for_range u s e ⟨hsv.2.1, hsv.2.2.1⟩ B| ≤ 3/200 := by
  have hse := dateLt_trans h1 h2
  have hne1 : ¬ (dateLe (⟨Y, M, 1⟩ : Date) s = true) := by
    rw [dateLe_false_of_lt h1]; simp
  have hne2 : ¬ (dateLe e (⟨Y, M, 1⟩ : Date) = true) := by
    rw [dateLe_false_of_lt h2]; simp
  have hne3 : ¬ (dateLe e s = true) := by
    rw [dateLe_false_of_lt hse]; simp
  have hd1 : 1 ≤ s.d := hsv.2.2.2.1
  have hraw : prorateRaw u s ⟨Y, M, 1⟩ ⟨hsv.2.1, hsv.2.2.1⟩ B
      + prorateRaw u ⟨Y, M, 1⟩ e ⟨hM1, hM2⟩ B
      = prorateRaw u s e ⟨hsv.2.1, hsv.2.2.1⟩ B := by
    unfold prorateRaw
    rw [if_neg hne1, if_neg hne2, if_neg hne3]
    rw [split_range_partition ⟨hsv.2.1, hsv.2.2.1⟩ hd1 ⟨hM1, hM2⟩ h1 h2]
    rw [List.map_append, List.sum_append]
    congr 1
    · apply congrArg
      apply List.map_congr_left
      intro mstr hmem
      rw [split_range_eq_loop ⟨hsv.2.1, hsv.2.2.1⟩ hd1 hne1] at hmem
      obtain ⟨y', m', a1, a2, a3, a4, a5⟩ := splitLoop_elems mstr hmem
      subst a3
      apply monthContribution_left a1 a2 ?_ h2
      have hidx : 12*y' + m' < 12*Y + M := by
        have hc := dateLt_iff.mp a5
        simp only at hc
        omega
      by_cases h12 : m' = 12
      · subst h12
        have hsucc : monthSucc y' 12 = ⟨y'+1, 1, 1⟩ := by simp [monthSucc]
        rw [hsucc]
        exact monthFirst_le_of_idx (by omega) (by omega) hM1 hM2 (by omega)
      · have hsucc : monthSucc y' m' = ⟨y', m'+1, 1⟩ := by simp [monthSucc, h12]
        rw [hsucc]
        exact monthFirst_le_of_idx (by omega) (by omega) hM1 hM2 (by omega)
    · apply congrArg
      apply List.map_congr_left
      intro mstr hmem
      rw [split_range_eq_loop ⟨hM1, hM2⟩ (le_refl 1) hne2] at hmem
      obtain ⟨y', m', a1, a2, a3, a4, a5⟩ := splitLoop_elems mstr hmem
      subst a3
      apply monthContribution_right a1 a2 ?_ h1
      exact monthFirst_le_of_idx hM1 hM2 a1 a2 (by simpa using a4)
  refine ⟨hraw, ?_⟩
  unfold prorate_monthly_budget_for_range
  have ea := abs_le.mp (abs_round2_sub_le
    (prorateRaw u s ⟨Y, M, 1⟩ ⟨hsv.2.1, hsv.2.2.1⟩ B))
  have eb := abs_le.mp (abs_round2_sub_le (prorateRaw u ⟨Y, M, 1⟩ e ⟨hM1, hM2⟩ B))
  have ec := abs_le.mp (abs_round2_sub_le (prorateRaw u s e ⟨hsv.2.1, hsv.2.2.1⟩ B))
  apply abs_le.mpr
  constructor <;> linarith [hraw]

/-- A concrete budget collaborator for the C4 witness. -/
def constBudgetLookup : String → String → Option (Option ℚ) :=
  fun _ _ => some (some 3000)

/-- Witness for C4 at `[2024-01-20, 2024-02-10)` split at the boundary
2024-02-01. -/
theorem C4_prorate_additive_witness :
    prorateRaw "u" ⟨2024, 1, 20⟩ ⟨2024, 2, 1⟩ (by decide) constBudgetLookup
        + prorateRaw "u" ⟨2024, 2, 1⟩ ⟨2024, 2, 10⟩ (by decide) constBudgetLookup
      = prorateRaw "u" ⟨2024, 1, 20⟩ ⟨2024, 2, 10⟩ (by decide) constBudgetLookup ∧
    |prorate_monthly_budget_for_range "u" ⟨2024, 1, 20⟩ ⟨2024, 2, 1⟩ (by decide)
          constBudgetLookup
        + prorate_monthly_budget_for_range "u" ⟨2024, 2, 1⟩ ⟨2024, 2, 10⟩ (by decide)
          constBudgetLookup
        - prorate_monthly_budget_for_range "u" ⟨2024, 1, 20⟩ ⟨2024, 2, 10⟩ (by decide)
          constBudgetLookup| ≤ 3/200 :=
  C4_prorate_additive "u" constBudgetLookup ⟨2024, 1, 20⟩ ⟨2024, 2, 10⟩ 2024 2
    (by decide) (by decide) (by decide) (by decide) (by decide) (by decide)

end ExpenseTracker
